import Mathlib

/-!
# Verification of the spmpy CIAO loader

A shallow embedding of the spmpy package (src/spmpy/utils.py,
src/spmpy/ciaoparams.py, src/spmpy/spmloader.py, and the legacy
src/spmloader.py) together with theorems settling the frozen claims about
its specification.

Modelling conventions:
* Python `int` is `ℤ`, Python `float` is `ℚ` (exact decimal arithmetic model
  of the floating point values appearing in headers).
* Python strings are Lean `String`s; the byte buffer of an SPM file is a
  `List ℕ` of byte values; the latin-1 codec maps byte `b` to the character
  with code point `b`.
* `pint.Quantity` is a magnitude paired with its display unit symbol; the
  unit registry is modelled by an explicit list of recognized symbols.
* Fallible Python code (exceptions) returns `Except String`.
* The fixed regular expressions of the source are embedded as specialized
  backtracking matchers that mirror Python `re` semantics (leftmost match,
  greedy quantifiers, ordered backtracking) for those fixed patterns.
-/

namespace Spmpy

/-- Whitespace characters of the regex class `\s` and Python `str.strip`
(ASCII part; header text never carries non-ASCII whitespace). -/
def isPySpace (c : Char) : Bool :=
  c = ' ' || c = '\t' || c = '\n' || c = '\r' || c = '\x0b' || c = '\x0c'

/-- Decimal digits, the regex class `\d` (ASCII part). -/
def isPyDigit (c : Char) : Bool :=
  '0' ≤ c && c ≤ '9'

/-- Word characters, the regex class `\w` (ASCII part; the only use is the
single-letter CIAO type tag). -/
def isPyWord (c : Char) : Bool :=
  c.isAlphanum || c = '_'

/-- Characters allowed by the character class `[^\d:]` shared by both value
regexes: anything but a decimal digit or a colon. -/
def isUnitChar (c : Char) : Bool :=
  !isPyDigit c && c != ':'

/-- Strip matching elements from both ends of a list (Python `strip`). -/
def stripWhile {α : Type} (p : α → Bool) (cs : List α) : List α :=
  ((cs.dropWhile p).reverse.dropWhile p).reverse

/-- Python `str.strip()` (whitespace, both ends). -/
def pyStrip (s : String) : String :=
  String.mk (stripWhile isPySpace s.toList)

/-- Python `str.strip(ch)` for a single strip character. -/
def pyStripChar (ch : Char) (s : String) : String :=
  String.mk (stripWhile (· = ch) s.toList)

/-- Python `str.lstrip(ch)` for a single strip character (leading only). -/
def pyLStripChar (ch : Char) (s : String) : String :=
  String.mk (s.toList.dropWhile (· = ch))

/-- Values produced by `utils.parse_parameter_value`: Python ints, floats,
strings, `pint` quantities, lists of floats (with or without a shared unit),
timestamps, or `None`. -/
inductive PyValue where
  | none
  | int (n : ℤ)
  | float (q : ℚ)
  | str (s : String)
  | quantity (mag : ℚ) (unit : String)
  | floatList (xs : List ℚ)
  | quantityList (mags : List ℚ) (unit : String)
  | datetime (year month day hour minute second : ℤ)
  deriving DecidableEq, Repr

/-- Python truthiness (`bool(x)`) of the modelled values; `pint` quantities
take the truth value of their magnitude. -/
def PyValue.truthy : PyValue → Bool
  | .none => false
  | .int n => n != 0
  | .float q => q != 0
  | .str s => s != ""
  | .quantity m _ => m != 0
  | .floatList xs => !xs.isEmpty
  | .quantityList ms _ => !ms.isEmpty
  | .datetime _ _ _ _ _ _ => true

/-- Decimal rendering of a rational that models Python `str(float)` for the
finite decimal values handled by this code base: minimal decimal expansion,
with `.0` appended to integral values, as CPython prints them. -/
def decRepr (q : ℚ) : String :=
  match (List.range 41).find? (fun k => (q * (10 : ℚ) ^ k).den = 1) with
  | Option.some k =>
    let m : ℤ := (q * (10 : ℚ) ^ k).num
    let ds := (toString m.natAbs).toList
    let ds := if ds.length ≤ k then List.replicate (k + 1 - ds.length) '0' ++ ds else ds
    let sign : List Char := if m < 0 then ['-'] else []
    if k = 0 then
      String.mk (sign ++ ds ++ ['.', '0'])
    else
      String.mk (sign ++ ds.take (ds.length - k) ++ ['.'] ++ ds.drop (ds.length - k))
  | Option.none => toString q

/-- Python `str()` of a modelled value, as used by the f-strings in
`ciaoparams.py`; quantities render through pint's compact `~C` format
(magnitude, one space, unit symbol). -/
def PyValue.pyStr : PyValue → String
  | .none => "None"
  | .int n => toString n
  | .float q => decRepr q
  | .str s => s
  | .quantity m u => decRepr m ++ " " ++ u
  | .floatList xs => "[" ++ String.intercalate ", " (xs.map decRepr) ++ "]"
  | .quantityList ms u => "[" ++ String.intercalate ", " (ms.map decRepr) ++ "] " ++ u
  | .datetime y mo d h mi s =>
    toString y ++ "-" ++ toString mo ++ "-" ++ toString d ++ " " ++
      toString h ++ ":" ++ toString mi ++ ":" ++ toString s

/-- Numeric value of a digit string. -/
def digitsVal (ds : List Char) : ℕ :=
  ds.foldl (fun a c => a * 10 + (c.toNat - 48)) 0

/-- Candidate matches, in Python's backtracking preference order, for the
optional exponent group `(?:[eE][+-]\d+)?`: the exponent with as many digits
as possible first, digits given back one at a time, the empty alternative
last. Each candidate is (consumed text, remaining input). -/
def expAlts (cs : List Char) : List (List Char × List Char) :=
  (match cs with
   | e :: s :: rest =>
     if (e = 'e' || e = 'E') && (s = '+' || s = '-') then
       let ds := rest.takeWhile isPyDigit
       (List.range ds.length).map fun i =>
         (e :: s :: ds.take (ds.length - i), ds.drop (ds.length - i) ++ rest.drop ds.length)
     else []
   | _ => []) ++ [([], cs)]

/-- Candidate matches for the number core `[+-]?\d+\.?\d*(?:[eE][+-]\d+)?`
shared by both value regexes, in backtracking preference order: the decimal
point consumed first (fractional digits given back one at a time, each with
its exponent alternatives), then the pointless alternative. The sign and the
integer digit run are deterministic: giving back integer digits leaves a
digit in front, which `\.?` cannot consume and `\d*` immediately re-consumes,
reaching the same states. -/
def numAlts (cs : List Char) : List (List Char × List Char) :=
  let sign : List Char := match cs with
    | c :: _ => if c = '+' || c = '-' then [c] else []
    | [] => []
  let afterSign := cs.drop sign.length
  let d1 := afterSign.takeWhile isPyDigit
  if d1.isEmpty then []
  else
    let afterD1 := afterSign.drop d1.length
    let withDot : List (List Char × List Char) :=
      match afterD1 with
      | '.' :: r =>
        let d2 := r.takeWhile isPyDigit
        ((List.range (d2.length + 1)).map fun i =>
          (d2.take (d2.length - i), d2.drop (d2.length - i) ++ r.drop d2.length)).flatMap
          fun fr => (expAlts fr.2).map fun ea => ('.' :: (fr.1 ++ ea.1), ea.2)
      | _ => []
    let noDot : List (List Char × List Char) := expAlts afterD1
    (withDot ++ noDot).map fun t => (sign ++ d1 ++ t.1, t.2)

/-- Match of `RE_NUMERICAL = ^([+-]?\d+\.?\d*(?:[eE][+-]\d+)?)( 1?[^\d:]+)?$`
against the whole input, returning the two capture groups. -/
def matchNumerical (cs : List Char) : Option (List Char × Option (List Char)) :=
  (numAlts cs).findSome? fun g1 =>
    if g1.2.isEmpty then
      Option.some (g1.1, Option.none)
    else
      match g1.2 with
      | ' ' :: r2 =>
        let with1 : Option (List Char) :=
          match r2 with
          | '1' :: r3 =>
            if !r3.isEmpty && r3.all isUnitChar then Option.some (' ' :: '1' :: r3)
            else Option.none
          | _ => Option.none
        let without1 : Option (List Char) :=
          if !r2.isEmpty && r2.all isUnitChar then Option.some (' ' :: r2) else Option.none
        (with1 <|> without1).map fun g2 => (g1.1, Option.some g2)
      | _ => Option.none

/-- One repetition of RE_MULTIPLE_NUMERICAL's group
`(?:(?<!\d)[+-]?\d+\.?\d*(?:[eE][+-]\d+)? ?)`, including the optional
trailing space (space-consuming candidate first, per greediness). -/
def repAlts (cs : List Char) : List (List Char × List Char) :=
  (numAlts cs).flatMap fun na =>
    match na.2 with
    | ' ' :: r => [(na.1 ++ [' '], r), (na.1, ' ' :: r)]
    | r => [(na.1, r)]

/-- Tail of a RE_MULTIPLE_NUMERICAL match after the repetitions: the optional
capture `([^\d:]+)?` followed by the end anchor. -/
def multiEnd (cs : List Char) : Option (Option (List Char)) :=
  if cs.isEmpty then Option.some Option.none
  else if cs.all isUnitChar then Option.some (Option.some cs)
  else Option.none

/-- Backtracking loop for the `(...)+` of RE_MULTIPLE_NUMERICAL. `prev` is
the last consumed character (for the `(?<!\d)` lookbehind); `fuel` bounds the
recursion (each repetition consumes at least one character, so the caller's
`cs.length + 1` always suffices). Returns (group 1 tail, group 2). -/
def multiLoop (fuel : ℕ) (cs : List Char) (prev : Option Char) :
    Option (List Char × Option (List Char)) :=
  match fuel with
  | 0 => Option.none
  | fuel + 1 =>
    let blocked := match prev with
      | Option.some c => isPyDigit c
      | Option.none => false
    if blocked then Option.none
    else
      (repAlts cs).findSome? fun ra =>
        let more := (multiLoop fuel ra.2 ra.1.getLast?).map fun t => (ra.1 ++ t.1, t.2)
        let stop := (multiEnd ra.2).map fun g2 => (ra.1, g2)
        more <|> stop

/-- Match of
`RE_MULTIPLE_NUMERICAL = ^((?:(?<!\d)[+-]?\d+\.?\d*(?:[eE][+-]\d+)? ?)+)([^\d:]+)?$`. -/
def matchMultiple (cs : List Char) : Option (List Char × Option (List Char)) :=
  multiLoop (cs.length + 1) cs Option.none

/-- Exact rational value of a float literal of the shapes produced by the
numeric regex captures (lenient evaluator; validation is separate). -/
def floatOfChars (cs : List Char) : ℚ :=
  let sgn : ℚ := match cs with
    | '-' :: _ => -1
    | _ => 1
  let cs₁ := match cs with
    | '+' :: r => r
    | '-' :: r => r
    | r => r
  let ip := cs₁.takeWhile isPyDigit
  let rest₁ := cs₁.drop ip.length
  let fp := match rest₁ with
    | '.' :: r => r.takeWhile isPyDigit
    | _ => []
  let rest₂ := match rest₁ with
    | '.' :: r => r.drop fp.length
    | r => r
  let ex : ℤ := match rest₂ with
    | e :: '-' :: ds =>
      if e = 'e' || e = 'E' then -(digitsVal (ds.takeWhile isPyDigit) : ℤ) else 0
    | e :: '+' :: ds =>
      if e = 'e' || e = 'E' then (digitsVal (ds.takeWhile isPyDigit) : ℤ) else 0
    | e :: ds =>
      if e = 'e' || e = 'E' then (digitsVal (ds.takeWhile isPyDigit) : ℤ) else 0
    | _ => 0
  sgn * ((digitsVal ip : ℚ) + (digitsVal fp : ℚ) / 10 ^ fp.length) * (10 : ℚ) ^ ex

/-- Shape check for Python `float(str)` literals:
`[+-]? (\d+(\.\d*)? | \.\d+) ([eE][+-]?\d+)?`. -/
def isFloatLit (cs : List Char) : Bool :=
  let cs₁ := match cs with
    | '+' :: r => r
    | '-' :: r => r
    | r => r
  let ip := cs₁.takeWhile isPyDigit
  let rest₁ := cs₁.drop ip.length
  let mantissaOk : Bool × List Char := match rest₁ with
    | '.' :: r =>
      let fp := r.takeWhile isPyDigit
      (!ip.isEmpty || !fp.isEmpty, r.drop fp.length)
    | r => (!ip.isEmpty, r)
  let expOk : Bool := match mantissaOk.2 with
    | [] => true
    | e :: r =>
      if e = 'e' || e = 'E' then
        let r₁ := match r with
          | '+' :: r' => r'
          | '-' :: r' => r'
          | r' => r'
        !r₁.isEmpty && r₁.all isPyDigit
      else false
  mantissaOk.1 && expOk

/-- Python `float(str)`: strips whitespace, then accepts a float literal. -/
def pyFloatOfString (s : String) : Except String ℚ :=
  let cs := stripWhile isPySpace s.toList
  if isFloatLit cs then .ok (floatOfChars cs)
  else .error ("could not convert string to float: " ++ s)

/-- Python `int(str)`: strips whitespace, then accepts an optional sign and
decimal digits only (in particular it rejects exponent notation). -/
def pyIntOfString (s : String) : Except String ℤ :=
  let cs := stripWhile isPySpace s.toList
  let ds := match cs with
    | '+' :: r => r
    | '-' :: r => r
    | r => r
  if !ds.isEmpty && ds.all isPyDigit then
    match cs with
    | '-' :: _ => .ok (-(digitsVal ds : ℤ))
    | _ => .ok (digitsVal ds)
  else .error ("invalid literal for int() with base 10: " ++ s)

/-- Python `str.split()` with no argument: split on whitespace runs,
dropping empty pieces. -/
def pySplitWs : List Char → List Char → List (List Char)
  | [], acc => if acc.isEmpty then [] else [acc.reverse]
  | c :: rest, acc =>
    if isPySpace c then
      if acc.isEmpty then pySplitWs rest [] else acc.reverse :: pySplitWs rest []
    else pySplitWs rest (c :: acc)

/-- Abbreviated weekday names accepted by strptime's `%a` in the C locale. -/
def weekdayNames : List String :=
  ["mon", "tue", "wed", "thu", "fri", "sat", "sun"]

/-- Abbreviated month names accepted by strptime's `%b` in the C locale,
in calendar order. -/
def monthNames : List String :=
  ["jan", "feb", "mar", "apr", "may", "jun", "jul", "aug", "sep", "oct", "nov", "dec"]

/-- A 1-or-2 digit strptime field with an inclusive value range. -/
def numField (cs : List Char) (lo hi : ℕ) : Option ℕ :=
  if cs.all isPyDigit && (cs.length = 1 || cs.length = 2) then
    let v := digitsVal cs
    if lo ≤ v && v ≤ hi then Option.some v else Option.none
  else Option.none

/-- Lower-cased copy of a string (strptime matches names case-insensitively). -/
def lowerStr (s : String) : String :=
  String.mk (s.toList.map Char.toLower)

/-- `datetime.strptime(value_str, '%I:%M:%S %p %a %b %d %Y')`: `none` when
the format does not match (the `ValueError` path in the source). Whitespace
in the format matches whitespace runs; names match case-insensitively, as in
CPython's strptime. -/
def tryParseDate (s : String) : Option PyValue :=
  match pySplitWs s.toList [] with
  | [t, ap, wd, mon, day, yr] =>
    match (String.mk t).splitOn ":" with
    | [hh, mm, ss] =>
      match numField hh.toList 1 12, numField mm.toList 0 59, numField ss.toList 0 59 with
      | Option.some h, Option.some mi, Option.some sec =>
        let apl := lowerStr (String.mk ap)
        if (apl = "am" || apl = "pm") && weekdayNames.contains (lowerStr (String.mk wd)) then
          match (monthNames.indexOf? (lowerStr (String.mk mon))), numField day 1 31 with
          | Option.some mIdx, Option.some d =>
            if yr.length = 4 && yr.all isPyDigit then
              let h24 : ℕ := (h % 12) + (if apl = "pm" then 12 else 0)
              Option.some (.datetime (digitsVal yr) (mIdx + 1) d h24 mi sec)
            else Option.none
          | _, _ => Option.none
        else Option.none
      | _, _, _ => Option.none
    | _ => Option.none
  | _ => Option.none

/-- Unit symbols recognized in this development: a model of pint's default
registry restricted to the symbols this repository's headers use, together
with the units defined at import time in utils.py (`LSB`, `Arb`, `log_Arb`,
`log_V`, `log_Pa`, and the `º` alias of degree). The fantasy unit `FooBar`
used by the spec's examples is, correctly, not registered. -/
def knownUnits : List String :=
  ["V", "mV", "V/LSB", "mV/LSB", "LSB", "m", "nm", "µm", "pm", "nm/V", "µm/V",
   "Hz", "kHz", "MHz", "s", "ms", "µs", "A", "nA", "pA", "º", "deg", "degrees",
   "Arb", "log_Arb", "log_V", "log_Pa", "%"]

/-- The parenthesis normalization applied to unit text before lookup:
`log(Pa)` becomes `log_Pa` (only when a `(` is present). -/
def normalizeParens (u : String) : String :=
  if u.toList.contains '(' then
    String.mk ((u.toList.filter (· ≠ ')')).map fun c => if c = '(' then '_' else c)
  else u

/-- Faithful embedding of `utils.parse_parameter_value`. The second
component collects the diagnostics printed (the unknown-unit message); the
`.error` cases are exactly the uncaught Python exceptions: `int()` on an
exponent literal, `float()` on a malformed list piece, and an unregistered
unit in the list-of-numbers branch (whose `UndefinedUnitError` is not
caught in the source). -/
def parseParameterValue (input : Option String) : Except String (PyValue × List String) :=
  match input with
  | Option.none => .ok (.none, [])
  | Option.some s =>
    if s = "" then .ok (.str "", [])
    else
      let vs := pyStrip s
      let cs := vs.toList
      match matchNumerical cs with
      | Option.some (g1, Option.some g2) =>
        let unit := normalizeParens (String.mk g2)
        if knownUnits.contains (pyStrip unit) then
          .ok (.quantity (floatOfChars g1) (pyStrip unit), [])
        else
          .ok (.str vs,
            ["Unit not recognized: " ++ String.mk g2 ++ ", parameter not converted: " ++ vs])
      | Option.some (_, Option.none) =>
        if cs.contains '.' then
          (pyFloatOfString vs).map fun q => (.float q, [])
        else
          (pyIntOfString vs).map fun n => (.int n, [])
      | Option.none =>
        match matchMultiple cs with
        | Option.some (g1m, g2m) =>
          let pieceVals := (pySplitWs g1m []).mapM fun p => pyFloatOfString (String.mk p)
          match pieceVals with
          | .error e => .error e
          | .ok vals =>
            match g2m with
            | Option.some g2 =>
              let unit := (String.mk g2).replace "~m" "µm"
              if knownUnits.contains (pyStrip unit) then
                .ok (.quantityList vals (pyStrip unit), [])
              else
                .error ("UndefinedUnitError: " ++ unit)
            | Option.none => .ok (.floatList vals, [])
        | Option.none =>
          match tryParseDate vs with
          | Option.some d => .ok (d, [])
          | Option.none => .ok (.str (pyStripChar '"' vs), [])

/-- All (front, back) splits of a list, shortest front first. -/
def splitsAsc : List Char → List (List Char × List Char)
  | [] => [([], [])]
  | c :: cs => ([], c :: cs) :: (splitsAsc cs).map fun p => (c :: p.1, p.2)

/-- All (front, back) splits, longest front first: the candidate order of a
greedy `.*` followed by more pattern. -/
def splitsDesc (cs : List Char) : List (List Char × List Char) :=
  (splitsAsc cs).reverse

/-- Capture groups of a successful `RE_CIAO_PARAM` match:
`^\\?@?(?:(?P<group>\d?):)?(?P<param>.*): (?P<type>\w)\s?(?:\[(?P<softscale>.*)\])?\s?(?:\((?P<hardscale>.*)\))?\s(?P<hardval>.*)$`. -/
structure CiaoMatch where
  groupCap : Option (List Char)
  param : List Char
  ptype : Char
  softscale : Option (List Char)
  hardscale : Option (List Char)
  hardval : List Char
  deriving DecidableEq, Repr

/-- `\s(?P<hardval>.*)$`: one whitespace character, the rest is hardval
(header lines carry no newline, so `$` is end of input). -/
def ciaoFinal (cs : List Char) : Option (List Char) :=
  match cs with
  | c :: rest => if isPySpace c then Option.some rest else Option.none
  | [] => Option.none

/-- `(?:\((?P<hardscale>.*)\))?` then the final part; the parenthesized
alternative is preferred and its `.*` is greedy. -/
def ciaoParen (cs : List Char) : Option (Option (List Char) × List Char) :=
  (match cs with
   | '(' :: rest =>
     (splitsDesc rest).findSome? fun pr =>
       match pr.2 with
       | ')' :: r2 => (ciaoFinal r2).map fun hv => (Option.some pr.1, hv)
       | _ => Option.none
   | _ => Option.none)
  <|> (ciaoFinal cs).map fun hv => (Option.none, hv)

/-- The `\s?` between the bracket group and the parenthesis group. -/
def ciaoWs2 (cs : List Char) : Option (Option (List Char) × List Char) :=
  (match cs with
   | c :: rest => if isPySpace c then ciaoParen rest else Option.none
   | [] => Option.none)
  <|> ciaoParen cs

/-- `(?:\[(?P<softscale>.*)\])?` then the rest of the pattern. -/
def ciaoBracket (cs : List Char) :
    Option (Option (List Char) × Option (List Char) × List Char) :=
  (match cs with
   | '[' :: rest =>
     (splitsDesc rest).findSome? fun pr =>
       match pr.2 with
       | ']' :: r2 => (ciaoWs2 r2).map fun t => (Option.some pr.1, t.1, t.2)
       | _ => Option.none
   | _ => Option.none)
  <|> (ciaoWs2 cs).map fun t => (Option.none, t.1, t.2)

/-- The `\s?` right after the type letter. -/
def ciaoWs1 (cs : List Char) :
    Option (Option (List Char) × Option (List Char) × List Char) :=
  (match cs with
   | c :: rest => if isPySpace c then ciaoBracket rest else Option.none
   | [] => Option.none)
  <|> ciaoBracket cs

/-- `(?P<type>\w)` then the rest. -/
def ciaoType (cs : List Char) :
    Option (Char × Option (List Char) × Option (List Char) × List Char) :=
  match cs with
  | c :: rest => if isPyWord c then (ciaoWs1 rest).map fun t => (c, t) else Option.none
  | [] => Option.none

/-- `(?P<param>.*): ` then the rest: the greedy `.*` prefers the longest
name prefix whose remainder starts with a colon-space and completes. -/
def ciaoNameSplit (cs : List Char) :
    Option (List Char × Char × Option (List Char) × Option (List Char) × List Char) :=
  (splitsDesc cs).findSome? fun pr =>
    match pr.2 with
    | ':' :: ' ' :: r2 => (ciaoType r2).map fun t => (pr.1, t)
    | _ => Option.none

/-- `(?:(?P<group>\d?):)?` then the rest: digit-and-colon preferred, then a
bare colon with an empty digit capture, then no group at all. -/
def ciaoGroup (cs : List Char) :
    Option (Option (List Char) × List Char × Char ×
      Option (List Char) × Option (List Char) × List Char) :=
  (match cs with
   | d :: ':' :: r =>
     if isPyDigit d then (ciaoNameSplit r).map fun t => (Option.some [d], t) else Option.none
   | _ => Option.none)
  <|> (match cs with
   | ':' :: r => (ciaoNameSplit r).map fun t => (Option.some ([] : List Char), t)
   | _ => Option.none)
  <|> (ciaoNameSplit cs).map fun t => (Option.none, t)

/-- `@?` at the start of the pattern. -/
def ciaoAt (cs : List Char) :
    Option (Option (List Char) × List Char × Char ×
      Option (List Char) × Option (List Char) × List Char) :=
  (match cs with
   | '@' :: r => ciaoGroup r
   | _ => Option.none)
  <|> ciaoGroup cs

/-- `\\?` at the very start. -/
def ciaoStart (cs : List Char) :
    Option (Option (List Char) × List Char × Char ×
      Option (List Char) × Option (List Char) × List Char) :=
  (match cs with
   | '\\' :: r => ciaoAt r
   | _ => Option.none)
  <|> ciaoAt cs

/-- `RE_CIAO_PARAM.match(ciao_string)` with its captures. -/
def matchCiao (s : String) : Option CiaoMatch :=
  (ciaoStart s.toList).map fun t =>
    { groupCap := t.1, param := t.2.1, ptype := t.2.2.1,
      softscale := t.2.2.2.1, hardscale := t.2.2.2.2.1, hardval := t.2.2.2.2.2 }

/-- The tagged union over the three CIAO parameter variants of
`ciaoparams.py` (Value / Scale / Select classes); optional fields hold
`PyValue.none` where the Python attribute is `None`. -/
inductive CIAOParameter where
  | valueParameter (group : Option ℤ) (name : String)
      (soft_scale hard_scale hard_value : PyValue)
  | scaleParameter (group : Option ℤ) (name : String)
      (soft_scale hard_value : PyValue)
  | selectParameter (group : Option ℤ) (name : String)
      (internal_designation external_designation : PyValue)
  deriving DecidableEq, Repr

/-- The `name` attribute. -/
def CIAOParameter.name : CIAOParameter → String
  | .valueParameter _ n _ _ _ => n
  | .scaleParameter _ n _ _ => n
  | .selectParameter _ n _ _ => n

/-- The `group` attribute. -/
def CIAOParameter.group : CIAOParameter → Option ℤ
  | .valueParameter g _ _ _ _ => g
  | .scaleParameter g _ _ _ => g
  | .selectParameter g _ _ _ => g

/-- The `soft_scale` attribute of the Value and Scale variants. -/
def CIAOParameter.soft_scale : CIAOParameter → PyValue
  | .valueParameter _ _ ss _ _ => ss
  | .scaleParameter _ _ ss _ => ss
  | .selectParameter _ _ _ _ => .none

/-- The `hard_value` attribute of the Value and Scale variants. -/
def CIAOParameter.hard_value : CIAOParameter → PyValue
  | .valueParameter _ _ _ _ hv => hv
  | .scaleParameter _ _ _ hv => hv
  | .selectParameter _ _ _ _ => .none

/-- The `external_designation` attribute of the Select variant. -/
def CIAOParameter.external_designation : CIAOParameter → PyValue
  | .selectParameter _ _ _ ed => ed
  | _ => .none

/-- Faithful embedding of `CIAOParameter.from_string`: match the line
against `RE_CIAO_PARAM`, convert the captures (an empty or absent group
digit becomes `None`; soft-scale is always run through the value; a falsy
hard-scale or hard-value capture becomes `None`), and dispatch on the
type letter, raising on an unrecognized letter or a failed match. -/
def fromString (ciao_str : String) : Except String CIAOParameter :=
  match matchCiao ciao_str with
  | Option.none => .error ("Not a recognized CIAO parameter object: " ++ ciao_str)
  | Option.some m => do
    let group : Option ℤ := match m.groupCap with
      | Option.some (d :: _) => Option.some ((digitsVal [d] : ℕ) : ℤ)
      | _ => Option.none
    let name := String.mk m.param
    let ss ← (parseParameterValue (m.softscale.map String.mk)).map Prod.fst
    let hs ← match m.hardscale with
      | Option.some h =>
        if h.isEmpty then pure PyValue.none
        else (parseParameterValue (Option.some (String.mk h))).map Prod.fst
      | Option.none => pure PyValue.none
    let hv ← if m.hardval.isEmpty then pure PyValue.none
      else (parseParameterValue (Option.some (String.mk m.hardval))).map Prod.fst
    if m.ptype = 'V' then
      pure (.valueParameter group name ss hs hv)
    else if m.ptype = 'C' then
      pure (.scaleParameter group name ss hv)
    else if m.ptype = 'S' then
      pure (.selectParameter group name ss hv)
    else
      .error ("Not a recognized CIAO parameter type: " ++ String.singleton m.ptype ++
        ". Allowed types: V, C, S")

/-- `f'{self.group}:' if self.group else ''`: a `None` or `0` group prints
nothing. -/
def groupString (g : Option ℤ) : String :=
  match g with
  | Option.some n => if n ≠ 0 then toString n ++ ":" else ""
  | Option.none => ""

/-- The `ciao_string` serializers of the three variants, translated f-string
by f-string (including the space that `ScaleParameter.ciao_string` inserts
between the group part and the name). -/
def CIAOParameter.ciao_string : CIAOParameter → String
  | .valueParameter g name ss hs hv =>
    let sscale := if ss.truthy then " [" ++ ss.pyStr ++ "]" else ""
    let hscale := if hs.truthy then " (" ++ hs.pyStr ++ ")" else ""
    "\\@" ++ groupString g ++ name ++ ": V" ++ sscale ++ hscale ++ " " ++ hv.pyStr
  | .scaleParameter g name ss hv =>
    "\\@" ++ groupString g ++ " " ++ name ++ ": C [" ++ ss.pyStr ++ "] " ++ hv.pyStr
  | .selectParameter g name int_d ext_d =>
    "\\@" ++ groupString g ++ name ++ ": S [" ++ int_d.pyStr ++ "] \"" ++ ext_d.pyStr ++ "\""

/-- A Python dict with string keys: an association list in insertion order;
assignment to an existing key overwrites in place, a new key is appended. -/
def PDict (α : Type) : Type := List (String × α)

instance (α : Type) [DecidableEq α] : DecidableEq (PDict α) :=
  inferInstanceAs (DecidableEq (List (String × α)))

instance (α : Type) [Repr α] : Repr (PDict α) :=
  inferInstanceAs (Repr (List (String × α)))

instance (α : Type) : EmptyCollection (PDict α) := ⟨([] : List (String × α))⟩

/-- Dict lookup (`d[k]` successful case / `k in d`). -/
def PDict.get? {α : Type} (d : PDict α) (k : String) : Option α :=
  (List.find? (fun p => p.1 = k) d).map Prod.snd

/-- Dict assignment `d[k] = v`. -/
def PDict.set {α : Type} (d : PDict α) (k : String) (v : α) : PDict α :=
  if (List.find? (fun p => p.1 = k) d).isSome then
    List.map (fun p => if p.1 = k then (k, v) else p) d
  else
    List.append d [(k, v)]

/-- Dict update `d.update(other)`: assign every entry of `other` in order. -/
def PDict.update {α : Type} (d other : PDict α) : PDict α :=
  List.foldl (fun acc p => PDict.set acc p.1 p.2) d other

/-- The keys of a dict, in insertion order. -/
def PDict.keys {α : Type} (d : PDict α) : List String :=
  List.map Prod.fst d

/-- A header-section entry: either a plain parsed value or a CIAO parameter. -/
inductive HVal where
  | val (v : PyValue)
  | param (p : CIAOParameter)
  deriving DecidableEq, Repr

/-- Whitespace bytes for Python `bytes.strip()`. -/
def isPySpaceByte (b : ℕ) : Bool :=
  b = 32 || b = 9 || b = 10 || b = 13 || b = 11 || b = 12

/-- `bytes.splitlines()`: split on `\n`, `\r\n` or `\r`; a trailing
terminator produces no empty final line. -/
def splitLinesB : List ℕ → List ℕ → List (List ℕ)
  | [], acc => if acc.isEmpty then [] else [acc.reverse]
  | 13 :: 10 :: rest, acc => acc.reverse :: splitLinesB rest []
  | 10 :: rest, acc => acc.reverse :: splitLinesB rest []
  | 13 :: rest, acc => acc.reverse :: splitLinesB rest []
  | b :: rest, acc => splitLinesB rest (b :: acc)

/-- The latin-1 codec: each byte is the character with that code point. -/
def decodeLatin1 (bs : List ℕ) : String :=
  String.mk (bs.map Char.ofNat)

/-- The byte literal `b'\*File list end'` tested against the raw line. -/
def fileListEndBytes : List ℕ :=
  "\\*File list end".toList.map Char.toNat

/-- The byte literal `b'\*File list'` of the legacy loader. -/
def fileListStartBytes : List ℕ :=
  "\\*File list".toList.map Char.toNat

/-- `line.split(':', 1)` when a colon is present. -/
def splitOnceColon (s : String) : Option (String × String) :=
  (splitsAsc s.toList).findSome? fun pr =>
    match pr.2 with
    | ':' :: r => Option.some (String.mk pr.1, String.mk r)
    | _ => Option.none

/-- The key under which `parse_header` stores a CIAO parameter:
`ciaoparam.name if not ciaoparam.group else f'{ciaoparam.group}:{ciaoparam.name}'`
(`not group` is Python truthiness, so a `None` or `0` group keys bare). -/
def ciaoKey (p : CIAOParameter) : String :=
  match p.group with
  | Option.some g => if g ≠ 0 then toString g ++ ":" ++ p.name else p.name
  | Option.none => p.name

/-- The decoded header of one SPM file: the regular sections (a dict keyed
by section name) and the repeating `Ciao image list` records. This splits
the single Python dict, whose `'Ciao image list'` key holds the list while
every other key holds a section dict; the image-list key is created first
and never assigned a section dict (the name is intercepted before the
regular-section assignment). -/
structure Header where
  sections : PDict (PDict HVal)
  imageList : List (PDict HVal)
  deriving DecidableEq, Repr

/-- The loop state of `parse_header`. -/
structure ParseState where
  sections : PDict (PDict HVal)
  imageList : List (PDict HVal)
  currentSection : Option String
  currentHeader : PDict HVal
  deriving DecidableEq, Repr

/-- The section commit performed at every section-marker line: an open
`Ciao image list` record is appended to the list, any other open section is
assigned into the header dict. -/
def commitSection (st : ParseState) : ParseState :=
  if st.currentSection = Option.some "Ciao image list" then
    { st with imageList := st.imageList ++ [st.currentHeader] }
  else
    match st.currentSection with
    | Option.some sec => { st with sections := st.sections.set sec st.currentHeader }
    | Option.none => st

/-- The line loop of `parse_header`: classify each decoded, left-stripped
line as section marker (commit, stop at the end sentinel), CIAO parameter
line, or plain `key: value` line. Reaching the end of input without the
sentinel simply ends the loop (the open section is never committed). The
`.error` cases are the uncaught exceptions: a failed CIAO parameter parse, a
plain line without a colon, and value-parse exceptions. -/
def parseHeaderLines : List (List ℕ) → ParseState → Except String Header
  | [], st => .ok { sections := st.sections, imageList := st.imageList }
  | lb :: rest, st =>
    let line := pyLStripChar '\\' (decodeLatin1 lb)
    if line.startsWith "*" then
      let st' := commitSection st
      if lb = fileListEndBytes then
        .ok { sections := st'.sections, imageList := st'.imageList }
      else
        parseHeaderLines rest
          { st' with currentSection := Option.some (pyStripChar '*' line), currentHeader := ∅ }
    else if line.startsWith "@" then
      match fromString line with
      | .error e => .error e
      | .ok p =>
        parseHeaderLines rest
          { st with currentHeader := st.currentHeader.set (ciaoKey p) (.param p) }
    else
      match splitOnceColon line with
      | Option.none => .error ("not enough values to unpack: " ++ line)
      | Option.some (key, value) =>
        match parseParameterValue (Option.some value) with
        | .error e => .error e
        | .ok (v, _) =>
          parseHeaderLines rest { st with currentHeader := st.currentHeader.set key (.val v) }

/-- Faithful embedding of `spmloader.parse_header` (the spmpy package
version). -/
def parseHeader (bts : List ℕ) : Except String Header :=
  parseHeaderLines (splitLinesB bts [])
    { sections := ∅, imageList := [], currentSection := Option.none, currentHeader := ∅ }

/-- Index search of the legacy `extract_metadata_lines`: remembers the last
`\*File list` line seen and stops at the first `\*File list end` line
(byte-stripped comparisons), returning both indices. -/
def emlFind : List (List ℕ) → ℕ → Option ℕ → Option (Option ℕ × ℕ)
  | [], _, _ => Option.none
  | lb :: rest, i, st =>
    if stripWhile isPySpaceByte lb = fileListStartBytes then
      emlFind rest (i + 1) (Option.some i)
    else if stripWhile isPySpaceByte lb = fileListEndBytes then
      Option.some (st, i)
    else
      emlFind rest (i + 1) st

/-- Faithful embedding of the legacy `spmloader.extract_metadata_lines` of
the standalone module: slices the lines between the sentinels, decoded and
left-stripped, and raises `ValueError` when either sentinel is missing. -/
def extractMetadataLines (bts : List ℕ) : Except String (List String) :=
  let ls := splitLinesB bts []
  match emlFind ls 0 Option.none with
  | Option.some (Option.some i, j) =>
    .ok (((ls.drop i).take (j - i)).map fun lb => pyLStripChar '\\' (decodeLatin1 lb))
  | _ => .error "Beginning or end of \"\\*File list\" missing, cannot extract metadata"

/-- Whether `pat` occurs at the head of `l`. -/
def listStartsWith {α : Type} [DecidableEq α] : List α → List α → Bool
  | [], _ => true
  | _ :: _, [] => false
  | p :: ps, x :: xs => p = x && listStartsWith ps xs

/-- Whether `pat` occurs contiguously anywhere in `l` (Python `pat in l`). -/
def listHasInfix {α : Type} [DecidableEq α] (pat : List α) : List α → Bool
  | [] => pat.isEmpty
  | x :: xs => listStartsWith pat (x :: xs) || listHasInfix pat xs

/-- `'Ciao image list' in key` (Python substring containment). -/
def containsImageList (key : String) : Bool :=
  listHasInfix "Ciao image list".toList key.toList

/-- `SPMFile._flat_header`: merge the sections whose name does not contain
`'Ciao image list'`, in header order, later sections overriding earlier
ones on duplicate keys. (The dict's first key, `'Ciao image list'` itself,
always contains the literal and is always excluded.) -/
def SPMFile.flatHeader (h : Header) : PDict HVal :=
  (h.sections.filter fun kv => !containsImageList kv.1).foldl
    (fun acc kv => acc.update kv.2) ∅

/-- `SPMFile.__getitem__`: flat-header lookup, `KeyError` when absent. -/
def SPMFile.getItem (h : Header) (k : String) : Except String HVal :=
  match (SPMFile.flatHeader h).get? k with
  | Option.some v => .ok v
  | Option.none => .error ("KeyError: " ++ k)

/-- The `value` attribute set by the variant constructors: a Value or Scale
parameter stores its hard value there, a Select parameter its external
designation. Arithmetic on parameters delegates to this attribute. -/
def CIAOParameter.value : CIAOParameter → PyValue
  | .valueParameter _ _ _ _ hv => hv
  | .scaleParameter _ _ _ hv => hv
  | .selectParameter _ _ _ ed => ed

/-- `self.soft_scale` on a header entry: present on the Value and Scale
variants; anything else raises `AttributeError` (via the delegation of
`__getattr__` to a value that has no such attribute). -/
def HVal.softScaleAttr : HVal → Except String PyValue
  | .param (.valueParameter _ _ ss _ _) => .ok ss
  | .param (.scaleParameter _ _ ss _) => .ok ss
  | _ => .error "AttributeError: soft_scale"

/-- `self.hard_value` on a header entry (Value and Scale variants only). -/
def HVal.hardValueAttr : HVal → Except String PyValue
  | .param (.valueParameter _ _ _ _ hv) => .ok hv
  | .param (.scaleParameter _ _ _ hv) => .ok hv
  | _ => .error "AttributeError: hard_value"

/-- Numeric magnitude of a value used as a scale factor in array
arithmetic (ints, floats, and quantity magnitudes; anything else is a
`TypeError` in the numpy multiplication). -/
def pyMag : PyValue → Except String ℚ
  | .int n => .ok (n : ℚ)
  | .float q => .ok q
  | .quantity m _ => .ok m
  | _ => .error "TypeError: unsupported operand"

/-- Division of a header value by a number: int and float divisions produce
floats, a quantity keeps its unit; division by zero raises. -/
def pyDivByQ (v : PyValue) (x : ℚ) : Except String PyValue :=
  if x = 0 then .error "ZeroDivisionError"
  else
    match v with
    | .int n => .ok (.float ((n : ℚ) / x))
    | .float q => .ok (.float (q / x))
    | .quantity m u => .ok (.quantity (m / x) u)
    | _ => .error "TypeError: unsupported operand"

/-- `np.linspace(0, stop, num)` magnitudes, in the exact rational model:
evenly spaced from `0` to `stop` inclusive. -/
def linQ (stop : ℚ) (num : ℕ) : List ℚ :=
  if num = 1 then [0]
  else (List.range num).map fun i => stop * i / (num - 1)

/-- `np.linspace(0, v, num)` on a header value, keeping the unit. -/
def linspacePy (v : PyValue) (num : ℕ) : Except String PyValue :=
  match v with
  | .int n => .ok (.floatList (linQ (n : ℚ) num))
  | .float q => .ok (.floatList (linQ q num))
  | .quantity m u => .ok (.quantityList (linQ m num) u)
  | _ => .error "TypeError: unsupported operand"

/-- An integral header field (`Data offset`, `Data length`, `Number of
lines`, `Samps/line` are plain integer lines in CIAO headers; the model
requires them to have parsed as Python ints). -/
def getIntField (d : PDict HVal) (k : String) : Except String ℤ :=
  match d.get? k with
  | Option.some (.val (.int n)) => .ok n
  | Option.some _ => .error ("TypeError: " ++ k)
  | Option.none => .error ("KeyError: " ++ k)

/-- `CIAOImage._bytes_per_pixel`: the data length floor-divided by the pixel
count — measured from the data, never read from the header's declared
`Bytes/pixel` field. -/
def bytesPerPixel (imageHeader : PDict HVal) : Except String ℤ := do
  let dl ← getIntField imageHeader "Data length"
  let nr ← getIntField imageHeader "Number of lines"
  let nc ← getIntField imageHeader "Samps/line"
  if nr * nc = 0 then .error "ZeroDivisionError"
  else .ok (Int.fdiv dl (nr * nc))

/-- Python list/bytes slice `l[a:b]` with clamping and negative indexing. -/
def pySlice (l : List ℕ) (a b : ℤ) : List ℕ :=
  let n : ℤ := l.length
  let norm : ℤ → ℤ := fun i => if i < 0 then max 0 (n + i) else min i n
  (l.take (norm b).toNat).drop (norm a).toNat

/-- Little-endian signed integer value of a byte chunk (the struct format
characters `<h`, `<i`, `<q`). -/
def decodeLE (bs : List ℕ) : ℤ :=
  let u : ℕ := bs.foldr (fun b acc => acc * 256 + b) 0
  if 2 * u ≥ 256 ^ bs.length then (u : ℤ) - 256 ^ bs.length else (u : ℤ)

/-- `struct.unpack('<{n}{c}', bytes)` for a signed integer letter of width
`w`: the `n` consecutive little-endian signed values. -/
def decodePixels (bs : List ℕ) (n w : ℕ) : List ℤ :=
  (List.range n).map fun i => decodeLE ((bs.drop (i * w)).take w)

/-- `.reshape(nRows, nCols)` of a flat pixel list. -/
def reshapeRows (xs : List ℤ) (nRows nCols : ℕ) : List (List ℤ) :=
  (List.range nRows).map fun r => (xs.drop (r * nCols)).take nCols

/-- Faithful embedding of `CIAOImage.raw_image_from_bytes`: slice the
declared byte range out of the whole file, unpack it as little-endian
signed integers whose width is `_bytes_per_pixel` (the dict of struct
letters has keys 2, 4 and 8 only — any other width is a `KeyError`; a
length mismatch is a `struct.error`), reshape to rows × columns and
reverse the row order (`np.flipud`). -/
def rawImageFromBytes (fileBytes : List ℕ) (imageHeader : PDict HVal) :
    Except String (List (List ℤ)) := do
  let dataStart ← getIntField imageHeader "Data offset"
  let dataLength ← getIntField imageHeader "Data length"
  let nr ← getIntField imageHeader "Number of lines"
  let nc ← getIntField imageHeader "Samps/line"
  let nPixels := nr * nc
  let bpp ← bytesPerPixel imageHeader
  if bpp = 2 ∨ bpp = 4 ∨ bpp = 8 then
    let w := bpp.toNat
    let bytestring := pySlice fileBytes dataStart (dataStart + dataLength)
    if bytestring.length = nPixels.toNat * w ∧ 0 ≤ nPixels then
      .ok ((reshapeRows (decodePixels bytestring nPixels.toNat w) nr.toNat nc.toNat).reverse)
    else
      .error "struct.error: unpack requires a buffer of matching length"
  else
    .error ("KeyError: " ++ toString bpp)

/-- The decoded state of one `CIAOImage` after `__init__`. -/
structure CIAOImage where
  imageHeader : PDict HVal
  fileSections : PDict (PDict HVal)
  rawImage : List (List ℤ)
  title : PyValue
  scanSize : PyValue
  height : PyValue
  width : PyValue
  pxSizeY : PyValue
  pxSizeX : PyValue
  yAxis : PyValue
  xAxis : PyValue
  deriving DecidableEq, Repr

/-- The file-section dict kept by `CIAOImage.__init__`: Python's
`key not in 'Ciao image list'` drops every section whose name is a
substring of that literal. -/
def nonImageSections (header : Header) : PDict (PDict HVal) :=
  header.sections.filter fun kv => !listHasInfix kv.1.toList "Ciao image list".toList

/-- The flat header used by `CIAOImage`: the flattened file sections, then
updated with the image's own header, whose keys therefore take precedence. -/
def imageFlatOf (sections : PDict (PDict HVal)) (ih : PDict HVal) : PDict HVal :=
  (sections.foldl (fun (acc : PDict HVal) kv => acc.update kv.2)
    (∅ : PDict HVal)).update ih

/-- `CIAOImage._flat_header`. -/
def CIAOImage.flatHeader (img : CIAOImage) : PDict HVal :=
  imageFlatOf img.fileSections img.imageHeader

/-- `CIAOImage.__getitem__`: flat-header lookup, `KeyError` when absent. -/
def CIAOImage.getItem (img : CIAOImage) (k : String) : Except String HVal :=
  match img.flatHeader.get? k with
  | Option.some v => .ok v
  | Option.none => .error ("KeyError: " ++ k)

/-- A `str`-valued header entry on which `.strip()` is legal (directly, or
through a parameter's delegation to its value). -/
def HVal.asStr : HVal → Except String String
  | .val (.str s) => .ok s
  | .param p =>
    match p.value with
    | .str s => .ok s
    | _ => .error "AttributeError: strip"
  | _ => .error "AttributeError: strip"

/-- Faithful embedding of `CIAOImage.__init__` given the whole file bytes,
the parsed header and the image number: select the per-image header record
(an out-of-range number is the `IndexError` naming the valid range), drop
the sections whose name Python's `key not in 'Ciao image list'` filters out
(the substrings of that literal), decode the raw pixels, then derive title,
scan size, height and width from the aspect field, pixel sizes and the two
coordinate axes. -/
def ciaoImageInit (fileBytes : List ℕ) (header : Header) (imageNumber : ℕ) :
    Except String CIAOImage := do
  let imageHeader ← match header.imageList.get? imageNumber with
    | Option.some ih => pure ih
    | Option.none =>
      .error ("CIAO image not in header, specify image number between 0 and "
        ++ toString (header.imageList.length - 1))
  let fileSections : PDict (PDict HVal) := nonImageSections header
  let raw ← rawImageFromBytes fileBytes imageHeader
  let title ← match imageHeader.get? "2:Image Data" with
    | Option.some (.param (.selectParameter _ _ _ ed)) => pure ed
    | Option.some _ => .error "AttributeError: external_designation"
    | Option.none => .error "KeyError: 2:Image Data"
  let scanSize ← match fileSections.get? "Ciao scan list" with
    | Option.some scanSection =>
      match scanSection.get? "Scan Size" with
      | Option.some (.val v) => pure v
      | Option.some (.param p) => pure p.value
      | Option.none => .error "KeyError: Scan Size"
    | Option.none => .error "KeyError: Ciao scan list"
  let nRows := raw.length
  let nCols := (raw.headD []).length
  let img0 : CIAOImage :=
    { imageHeader := imageHeader, fileSections := fileSections, rawImage := raw,
      title := title, scanSize := scanSize, height := .none, width := .none,
      pxSizeY := .none, pxSizeX := .none, yAxis := .none, xAxis := .none }
  let arHV ← img0.getItem "Aspect Ratio"
  let arStr ← arHV.asStr
  let parts := (pyStrip arStr).splitOn ":"
  let ar ← parts.mapM pyFloatOfString
  let a0 ← match ar.get? 0 with
    | Option.some x => pure x
    | Option.none => .error "IndexError: list index out of range"
  let a1 ← match ar.get? 1 with
    | Option.some x => pure x
    | Option.none => .error "IndexError: list index out of range"
  let height ← pyDivByQ scanSize a0
  let width ← pyDivByQ scanSize a1
  let pxSizeY ← pyDivByQ height (nRows : ℚ)
  let pxSizeX ← pyDivByQ width (nCols : ℚ)
  let yAxis ← linspacePy height nRows
  let xAxis ← linspacePy width nCols
  .ok { img0 with
    height := height
    width := width
    pxSizeY := pxSizeY
    pxSizeX := pxSizeX
    yAxis := yAxis
    xAxis := xAxis }

/-- Faithful embedding of the `CIAOImage.image` property: look up the
`2:Z scale` parameter; when its soft scale is truthy, resolve it as a key in
the flat header and scale by both hard values, otherwise scale by the
Z-scale hard value alone; in both cases normalize by
`2 ** (8 * _bytes_per_pixel)`. The result matrix holds the physical
magnitudes (pint's unit bookkeeping is outside this numeric model). -/
def CIAOImage.image (img : CIAOImage) : Except String (List (List ℚ)) := do
  let zs ← img.getItem "2:Z scale"
  let ss ← zs.softScaleAttr
  let bpp ← bytesPerPixel img.imageHeader
  if ss.truthy then do
    let key ← match ss with
      | .str s => pure s
      | v => .error ("KeyError: " ++ v.pyStr)
    let sens ← img.getItem key
    let hv ← pyMag (← zs.hardValueAttr)
    let sv ← pyMag (← sens.hardValueAttr)
    .ok (img.rawImage.map fun row => row.map fun r =>
      (r : ℚ) * hv * sv / (2 : ℚ) ^ (8 * bpp))
  else do
    let hv ← pyMag (← zs.hardValueAttr)
    .ok (img.rawImage.map fun row => row.map fun r =>
      (r : ℚ) * hv / (2 : ℚ) ^ (8 * bpp))

/-- The images produced by `extract_ciao_images`, as the ordered trace of
(dict key, image) pairs: one `CIAOImage` is constructed per record of the
image list, keyed by that record's `2:Image Data` external designation. -/
def extractTrace (header : Header) (bts : List ℕ) :
    List (PDict HVal) → ℕ → Except String (List (PyValue × CIAOImage))
  | [], _ => .ok []
  | ih :: rest, i => do
    let img ← ciaoImageInit bts header i
    let key ← match ih.get? "2:Image Data" with
      | Option.some (.param (.selectParameter _ _ _ ed)) => pure ed
      | Option.some _ => .error "AttributeError: external_designation"
      | Option.none => .error "KeyError: 2:Image Data"
    let tail ← extractTrace header bts rest (i + 1)
    .ok ((key, img) :: tail)

/-- Assignment into the images dict (`images[key] = image`), Python dict
semantics over arbitrary hashable keys. -/
def pvDictSet (d : List (PyValue × CIAOImage)) (k : PyValue) (v : CIAOImage) :
    List (PyValue × CIAOImage) :=
  if (List.find? (fun p => p.1 = k) d).isSome then
    List.map (fun p => if p.1 = k then (k, v) else p) d
  else
    List.append d [(k, v)]

/-- Faithful embedding of `SPMFile.extract_ciao_images`: the images dict
built from the production trace in order. -/
def extractCiaoImages (header : Header) (bts : List ℕ) :
    Except String (List (PyValue × CIAOImage)) := do
  let trace ← extractTrace header bts header.imageList 0
  .ok (trace.foldl (fun d p => pvDictSet d p.1 p.2) [])

/-- The decoded state of one `SPMFile`. -/
structure SPMFileModel where
  header : Header
  images : List (PyValue × CIAOImage)
  deriving DecidableEq, Repr

/-- Faithful embedding of `SPMFile.__init__` on a byte buffer: parse the
header, read `header['File list']['Version']` (a missing key is the
`KeyError` this line raises; an unsupported version is only a warning),
then extract the images. -/
def spmFileInit (bts : List ℕ) : Except String SPMFileModel := do
  let header ← parseHeader bts
  let fl ← match header.sections.get? "File list" with
    | Option.some d => pure d
    | Option.none => .error "KeyError: File list"
  let _ ← match fl.get? "Version" with
    | Option.some v => pure v
    | Option.none => .error "KeyError: Version"
  let images ← extractCiaoImages header bts
  .ok { header := header, images := images }

/-- The value of the last entry of `d` carrying key `k`, if any: the value
that survives when the entries of `d` are assigned into a dict in order. -/
def PDict.getLast? {α : Type} (d : PDict α) (k : String) : Option α :=
  d.reverse.findSome? fun p => if p.1 = k then Option.some p.2 else Option.none

/-- Decidable equality for `Except`, used to evaluate the embedded
functions inside closed proofs. -/
instance {ε α : Type} [DecidableEq ε] [DecidableEq α] : DecidableEq (Except ε α) := fun x y =>
  match x, y with
  | .ok a, .ok b => if h : a = b then isTrue (by rw [h]) else isFalse (by simp [h])
  | .error a, .error b => if h : a = b then isTrue (by rw [h]) else isFalse (by simp [h])
  | .ok _, .error _ => isFalse (by simp)
  | .error _, .ok _ => isFalse (by simp)

/-- Bytes of a latin-1 encodable string. -/
def strToBytes (s : String) : List ℕ :=
  s.toList.map Char.toNat

/-- A header whose only parameter line carries the group number `0`. -/
def c9File : List ℕ :=
  strToBytes "\\*File list\n\\@0:Foo: V 1\n\\*File list end"

/-- The displayed image described by claim C2 (spec-side description, for
the refinement proof): row `r`, column `c` of the displayed image is the
little-endian signed integer of width `w` decoded at byte offset
`off + ((rows-1-r)·cols + c)·w` — the byte range `[off, off+len)` decoded
as a row-major sequence of width-`w` little-endian signed integers,
reshaped to rows × cols, with the row order reversed. -/
def specDecodedImage (fb : List ℕ) (off rows cols w : ℕ) : List (List ℤ) :=
  (List.range rows).map fun r =>
    (List.range cols).map fun c =>
      decodeLE ((fb.drop (off + ((rows - 1 - r) * cols + c) * w)).take w)

/-- A placeholder image used only to extract concrete values from `Except`
results in closed statements. -/
def blankImage : CIAOImage :=
  { imageHeader := ∅, fileSections := ∅, rawImage := [], title := .none,
    scanSize := .none, height := .none, width := .none, pxSizeY := .none,
    pxSizeX := .none, yAxis := .none, xAxis := .none }

/-- A complete 2×2-pixel SPM file with aspect ratio `1:2` and scan size
100 µm: header text, padding up to the declared data offset 400, then the
four little-endian 16-bit pixel values 256, -256, 1000, -1000. -/
def c8HeaderText : String :=
  "\\*File list\n" ++
  "\\Version: 0x09400202\n" ++
  "\\*Ciao scan list\n" ++
  "\\Scan Size: 100 µm\n" ++
  "\\Aspect Ratio: 1:2\n" ++
  "\\@Sens. Zsens: V 5.0 nm/V\n" ++
  "\\*Ciao image list\n" ++
  "\\Data offset: 400\n" ++
  "\\Data length: 8\n" ++
  "\\Number of lines: 2\n" ++
  "\\Samps/line: 2\n" ++
  "\\Bytes/pixel: 4\n" ++
  "\\@2:Image Data: S [Height] \"Height\"\n" ++
  "\\@2:Z scale: V [Sens. Zsens] (0.5 V/LSB) 1.2 V\n" ++
  "\\*File list end\n"

/-- The byte buffer of the aspect-`1:2` sample file. -/
def c8File : List ℕ :=
  strToBytes c8HeaderText ++
    List.replicate (400 - (strToBytes c8HeaderText).length) 0 ++
    [0, 1, 0, 255, 232, 3, 24, 252]

/-- The parsed header of the aspect-`1:2` sample file. -/
def c8Hdr : Header :=
  ((parseHeader c8File).toOption).getD { sections := [], imageList := [] }

/-- Its single per-image header record. -/
def c8Ih : PDict HVal :=
  (c8Hdr.imageList.get? 0).getD ∅

/-- Its decoded raw pixel array. -/
def c8Raw : List (List ℤ) :=
  ((rawImageFromBytes c8File c8Ih).toOption).getD []

/-- Its scan-level section. -/
def c8ScanSec : PDict HVal :=
  (PDict.get? (nonImageSections c8Hdr) "Ciao scan list").getD ∅

/-- Its decoded image object. -/
def c8Img : CIAOImage :=
  ((ciaoImageInit c8File c8Hdr 0).toOption).getD blankImage

/-- Its image-production trace. -/
def c8Trace : List (PyValue × CIAOImage) :=
  ((extractTrace c8Hdr c8File c8Hdr.imageList 0).toOption).getD []

/-- A file whose Z-scale soft-scale reference `Sens. Foo` is recorded only
in the `File list` section — absent from both the image's own header and
the scan-level section. -/
def c3HeaderText : String :=
  "\\*File list\n" ++
  "\\Version: 0x09400202\n" ++
  "\\@Sens. Foo: V 7.0 nm/V\n" ++
  "\\*Ciao scan list\n" ++
  "\\Scan Size: 100 µm\n" ++
  "\\Aspect Ratio: 1:1\n" ++
  "\\*Ciao image list\n" ++
  "\\Data offset: 400\n" ++
  "\\Data length: 8\n" ++
  "\\Number of lines: 2\n" ++
  "\\Samps/line: 2\n" ++
  "\\@2:Image Data: S [Height] \"Height\"\n" ++
  "\\@2:Z scale: V [Sens. Foo] (0.5 V/LSB) 1.2 V\n" ++
  "\\*File list end\n"

/-- The byte buffer of the `Sens. Foo` sample file. -/
def c3File : List ℕ :=
  strToBytes c3HeaderText ++
    List.replicate (400 - (strToBytes c3HeaderText).length) 0 ++
    [0, 1, 0, 255, 232, 3, 24, 252]

/-- Its parsed header. -/
def c3Hdr : Header :=
  ((parseHeader c3File).toOption).getD { sections := [], imageList := [] }

/-- The image the `Sens. Foo` sample file decodes to, written out literally
(the first counterexample conjunct proves it equal to the decoder's
output). -/
def c3LitImg : CIAOImage :=
  { imageHeader := [("Data offset", .val (.int 400)), ("Data length", .val (.int 8)),
      ("Number of lines", .val (.int 2)), ("Samps/line", .val (.int 2)),
      ("2:Image Data", .param (.selectParameter (Option.some 2) "Image Data"
        (.str "Height") (.str "Height"))),
      ("2:Z scale", .param (.valueParameter (Option.some 2) "Z scale"
        (.str "Sens. Foo") (.quantity (1 / 2) "V/LSB") (.quantity (6 / 5) "V")))]
    fileSections := [("File list",
        [("Version", .val (.str "0x09400202")),
         ("Sens. Foo", .param (.valueParameter Option.none "Sens. Foo"
           PyValue.none PyValue.none (.quantity 7 "nm/V")))]),
      ("Ciao scan list",
        [("Scan Size", .val (.quantity 100 "µm")),
         ("Aspect Ratio", .val (.str "1:1"))])]
    rawImage := [[1000, -1000], [256, -256]]
    title := .str "Height"
    scanSize := .quantity 100 "µm"
    height := .quantity 100 "µm"
    width := .quantity 100 "µm"
    pxSizeY := .quantity 50 "µm"
    pxSizeX := .quantity 50 "µm"
    yAxis := .quantityList [0, 100] "µm"
    xAxis := .quantityList [0, 100] "µm" }

/-- A hand-built image whose Z-scale soft scale names `Sens. Baz`, a key
present nowhere in its headers. -/
def c3WitnessImg : CIAOImage :=
  { blankImage with
    imageHeader := [("Data length", .val (.int 8)), ("Number of lines", .val (.int 2)),
      ("Samps/line", .val (.int 2)),
      ("2:Z scale", .param (.valueParameter (Option.some 2) "Z scale" (.str "Sens. Baz")
        PyValue.none (.quantity (6 / 5) "V")))]
    rawImage := [[1, 2], [3, 4]] }

/-- Whether a raw header line is a `Ciao image list` section marker: after
latin-1 decoding and backslash-stripping it starts with `*` and strips (of
asterisks) to the repeating section name. -/
def isImageMarkerLine (lb : List ℕ) : Bool :=
  let line := pyLStripChar '\\' (decodeLatin1 lb)
  line.startsWith "*" && decide (pyStripChar '*' line = "Ciao image list")

/-- The number of `Ciao image list` section markers strictly before the
end-of-header sentinel line. -/
def countImageMarkers : List (List ℕ) → ℕ
  | [] => 0
  | lb :: rest =>
    if lb = fileListEndBytes then 0
    else (if isImageMarkerLine lb then 1 else 0) + countImageMarkers rest

/-- A sample header that ends without the `\*File list end` sentinel. -/
def c6HeaderText : String :=
  "\\*File list\n" ++
  "\\Version: 0x09400202\n" ++
  "\\*Ciao scan list\n" ++
  "\\Scan Size: 100 \u00b5m\n"

/-- The byte buffer of the sentinel-free sample file. -/
def c6File : List ℕ :=
  strToBytes c6HeaderText

/-- Whether one raw header line avoids every uncaught exception of the
`parse_header` loop body: a section marker always does; a CIAO parameter
line must parse; any other line must contain a colon and carry a value the
value parser accepts. -/
def lineOk (lb : List ℕ) : Bool :=
  if (pyLStripChar '\\' (decodeLatin1 lb)).startsWith "*" then true
  else if (pyLStripChar '\\' (decodeLatin1 lb)).startsWith "@" then
    (fromString (pyLStripChar '\\' (decodeLatin1 lb))).isOk
  else
    match splitOnceColon (pyLStripChar '\\' (decodeLatin1 lb)) with
    | Option.none => false
    | Option.some kv => (parseParameterValue (Option.some kv.2)).isOk

/-- Grammar-side condition on the printed hard value of a parameter: it
must not begin with whitespace, an opening parenthesis or an opening
bracket, or the optional regex groups would capture parts of it. -/
def headOkCiao : List Char → Bool
  | [] => false
  | c :: _ => !isPySpace c && c != '(' && c != '['

/-- Grammar-side condition on a parameter name serialized without a group
prefix: it must not begin with a colon or a digit-colon pair, which the
group alternative of `RE_CIAO_PARAM` would consume. -/
def nameStartOk : List Char → Bool
  | [] => true
  | [c] => c != ':'
  | c1 :: c2 :: _ => c1 != ':' && (c2 != ':' || !isPyDigit c1)

/-! ## Theorems settling the claims -/

set_option maxRecDepth 8000

/-- C7: the value parser maps `'1.5 V'` to the quantity 1.5 volt, `'1.5'`
to the float 1.5, `'5'` to the integer 5, and `'1.0 2.0 3.0 µm'` to a
unit-bearing list of floats; and on a numeric string with an unregistered
unit suffix (`'3 FooBar'`) it returns the input as a pass-through string,
emits a diagnostic, and raises no exception. -/
theorem c7_value_parser_cases :
    parseParameterValue (Option.some "1.5 V") = .ok (.quantity (3 / 2 : ℚ) "V", []) ∧
    parseParameterValue (Option.some "1.5") = .ok (.float (3 / 2 : ℚ), []) ∧
    parseParameterValue (Option.some "5") = .ok (.int 5, []) ∧
    parseParameterValue (Option.some "1.0 2.0 3.0 µm") =
      .ok (.quantityList [1, 2, 3] "µm", []) ∧
    parseParameterValue (Option.some "3 FooBar") =
      .ok (.str "3 FooBar",
        ["Unit not recognized:  FooBar, parameter not converted: 3 FooBar"]) := by
  refine ⟨?_, ?_, ?_, ?_, ?_⟩ <;> with_unfolding_all decide

theorem PDict.get?_cons {α : Type} (p : String × α) (d : PDict α) (k : String) :
    PDict.get? (p :: d) k = if p.1 = k then Option.some p.2 else PDict.get? d k := by
  by_cases h : p.1 = k <;> simp [PDict.get?, List.find?_cons, h]

theorem PDict.get?_append {α : Type} (d e : PDict α) (k : String) :
    PDict.get? (List.append d e) k = (PDict.get? d k).or (PDict.get? e k) := by
  simp only [PDict.get?, List.append_eq, List.find?_append]
  cases List.find? (fun p => p.1 = k) d <;> simp [Option.or]

theorem PDict.get?_map_ne {α : Type} (d : PDict α) (k k' : String) (v : α) (h : k' ≠ k) :
    PDict.get? (d.map fun p => if p.1 = k then (k, v) else p) k' = PDict.get? d k' := by
  induction d with
  | nil => rfl
  | cons p rest ih =>
    by_cases hk : p.1 = k
    · have h1 : ¬(k = k') := fun hkk => h hkk.symm
      have h2 : ¬(p.1 = k') := by rw [hk]; exact h1
      simp [List.map_cons, hk, PDict.get?_cons, ih, h1, h2]
    · simp [List.map_cons, hk, PDict.get?_cons, ih]

theorem PDict.get?_map_self {α : Type} (d : PDict α) (k : String) (v : α)
    (hmem : (List.find? (fun p => p.1 = k) d).isSome) :
    PDict.get? (d.map fun p => if p.1 = k then (k, v) else p) k = Option.some v := by
  induction d with
  | nil => simp at hmem
  | cons p rest ih =>
    by_cases hk : p.1 = k
    · simp [List.map_cons, hk, PDict.get?_cons]
    · simp only [List.find?_cons, hk] at hmem
      simp [List.map_cons, hk, PDict.get?_cons, ih hmem]

/-- Dict assignment and lookup interact as expected: assignment to `k`
overwrites `k` and leaves every other key's lookup unchanged. -/
theorem PDict.get?_set {α : Type} (d : PDict α) (k k' : String) (v : α) :
    PDict.get? (PDict.set d k v) k' = if k' = k then Option.some v else PDict.get? d k' := by
  unfold PDict.set
  by_cases hmem : (List.find? (fun p => p.1 = k) d).isSome
  · rw [if_pos hmem]
    by_cases h : k' = k
    · subst h; rw [if_pos rfl, PDict.get?_map_self d k' v hmem]
    · rw [if_neg h, PDict.get?_map_ne d k k' v h]
  · rw [if_neg hmem, PDict.get?_append]
    have hnone : List.find? (fun p => p.1 = k) d = Option.none := by
      cases hfd : List.find? (fun p => p.1 = k) d
      · rfl
      · rw [hfd] at hmem; simp at hmem
    by_cases h : k' = k
    · subst h
      have : PDict.get? d k' = Option.none := by simp [PDict.get?, hnone]
      simp [this, PDict.get?_cons, Option.none_or]
    · have : PDict.get? ([(k, v)] : PDict α) k' = Option.none := by
        simp [PDict.get?_cons, PDict.get?, Ne.symm h]
      simp [this, Option.or_none, h]

theorem PDict.getLast?_cons {α : Type} (p : String × α) (d : PDict α) (k : String) :
    PDict.getLast? (p :: d) k =
      (PDict.getLast? d k).or (if p.1 = k then Option.some p.2 else Option.none) := by
  simp only [PDict.getLast?, List.reverse_cons, List.findSome?_append]
  congr 1
  cases hfp : (if p.1 = k then Option.some p.2 else Option.none) <;>
    simp [List.findSome?_cons, hfp]

/-- Looking up after `d.update e`: the last `e`-entry for the key wins,
otherwise `d`'s value survives. -/
theorem PDict.get?_update {α : Type} (e d : PDict α) (k : String) :
    PDict.get? (PDict.update d e) k = (PDict.getLast? e k).or (PDict.get? d k) := by
  induction e generalizing d with
  | nil => simp [PDict.update, PDict.getLast?, Option.none_or]
  | cons p rest ih =>
    show PDict.get? (PDict.update (PDict.set d p.1 p.2) rest) k = _
    rw [ih, PDict.getLast?_cons, Option.or_assoc, PDict.get?_set]
    congr 1
    by_cases h : p.1 = k
    · rw [if_pos h.symm, if_pos h, Option.or_some]
    · rw [if_neg (fun hk => h hk.symm), if_neg h, Option.none_or]

/-- Folding dict updates over a list of sections: the lookup is resolved by
the latest section (and, within it, the latest entry) that carries the key,
falling back to the accumulator. -/
theorem PDict.get?_foldl_update {α : Type} (ss : List (String × PDict α)) (d : PDict α)
    (k : String) :
    PDict.get? (ss.foldl (fun acc kv => PDict.update acc kv.2) d) k =
      (ss.reverse.findSome? fun kv => PDict.getLast? kv.2 k).or (PDict.get? d k) := by
  induction ss generalizing d with
  | nil => simp [Option.none_or]
  | cons kv rest ih =>
    rw [List.foldl_cons, ih, PDict.get?_update, List.reverse_cons, List.findSome?_append,
      Option.or_assoc]
    congr 1
    cases hkv2 : PDict.getLast? kv.2 k <;>
      simp [List.findSome?_cons, hkv2, Option.or, Option.none_or]

/-- C10: the file-level accessor `SPMFile[key]` reads only the non-repeating
header sections: every section whose name contains `'Ciao image list'` is
excluded from the flat mapping (and the per-image records are never
consulted at all — the right-hand side does not mention them), the
remaining sections are merged with later sections overriding earlier ones
on duplicate keys, and a key carried by no included section — in particular
one recorded only in a per-image record — makes the lookup fail with a
`KeyError`. -/
theorem c10_flat_header_lookup (h : Header) (k : String) :
    (SPMFile.getItem h k =
      match (h.sections.filter fun kv => !containsImageList kv.1).reverse.findSome?
          (fun kv => PDict.getLast? kv.2 k) with
      | Option.some v => .ok v
      | Option.none => .error ("KeyError: " ++ k)) ∧
    ((∀ kv ∈ h.sections.filter fun kv => !containsImageList kv.1,
        PDict.get? kv.2 k = Option.none) →
      SPMFile.getItem h k = .error ("KeyError: " ++ k)) := by
  have hflat : (SPMFile.flatHeader h).get? k =
      (h.sections.filter fun kv => !containsImageList kv.1).reverse.findSome?
        (fun kv => PDict.getLast? kv.2 k) := by
    rw [SPMFile.flatHeader, PDict.get?_foldl_update]
    have : PDict.get? (∅ : PDict HVal) k = Option.none := rfl
    rw [this, Option.or_none]
  constructor
  · rw [SPMFile.getItem, hflat]
  · intro hall
    have hnone : (h.sections.filter fun kv => !containsImageList kv.1).reverse.findSome?
        (fun kv => PDict.getLast? kv.2 k) = Option.none := by
      rw [List.findSome?_eq_none_iff]
      intro kv hkv
      have hmem : kv ∈ h.sections.filter fun kv => !containsImageList kv.1 :=
        List.mem_reverse.mp hkv
      have hget := hall kv hmem
      rw [PDict.getLast?, List.findSome?_eq_none_iff]
      intro p hp
      by_cases hpk : p.1 = k
      · exfalso
        have : List.find? (fun q => q.1 = k) kv.2 ≠ Option.none := by
          intro hfind
          rw [List.find?_eq_none] at hfind
          exact (hfind p (List.mem_reverse.mp hp)) (by simp [hpk])
        cases hfind : List.find? (fun q => q.1 = k) kv.2
        · exact this hfind
        · rw [PDict.get?, hfind] at hget; simp at hget
      · simp [hpk]
    rw [SPMFile.getItem, hflat, hnone]

/-- Witness for C10 at a concrete header: a key stored only in a per-image
record and in a `Ciao image list 2` section is not found by the file-level
accessor, while a key present in two regular sections resolves to the later
section's value. -/
theorem c10_flat_header_lookup_witness :
    SPMFile.getItem
      { sections := [("File list", [("A", .val (.int 1)), ("B", .val (.int 7))]),
                     ("Ciao image list 2", [("C", .val (.int 9))]),
                     ("Ciao scan list", [("A", .val (.int 2))])],
        imageList := [[("C", .val (.int 3))]] } "C" = .error "KeyError: C" ∧
    SPMFile.getItem
      { sections := [("File list", [("A", .val (.int 1)), ("B", .val (.int 7))]),
                     ("Ciao image list 2", [("C", .val (.int 9))]),
                     ("Ciao scan list", [("A", .val (.int 2))])],
        imageList := [[("C", .val (.int 3))]] } "A" = .ok (.val (.int 2)) := by
  constructor
  · exact (c10_flat_header_lookup _ "C").2 (by decide)
  · rw [(c10_flat_header_lookup _ "A").1]
    with_unfolding_all decide

/-- C9, counterexample: the line `\@0:Foo: V 1` carries the group number
`0`, yet `parse_header` stores the parameter under the bare key `Foo`
(Python's `not ciaoparam.group` treats a zero group as absent), refuting
"the string '{group}:{name}' whenever a group number is present". -/
theorem c9_group_zero_counterexample :
    fromString "@0:Foo: V 1" =
      .ok (.valueParameter (Option.some 0) "Foo" .none .none (.int 1)) ∧
    parseHeader c9File =
      .ok { sections := [("File list",
            [("Foo", .param (.valueParameter (Option.some 0) "Foo" .none .none (.int 1)))])]
            imageList := [] } := by
  constructor <;> with_unfolding_all decide

/-- C9 as amended: the storage key of a parsed parameter is the bare name
when the group number is absent or zero (zero is falsy in the source's
`not ciaoparam.group` test), and `'{group}:{name}'` for any other group
number. -/
theorem c9_param_key_amended (p : CIAOParameter) (g : ℤ) :
    (p.group = Option.none → ciaoKey p = p.name) ∧
    (p.group = Option.some 0 → ciaoKey p = p.name) ∧
    (p.group = Option.some g → g ≠ 0 → ciaoKey p = toString g ++ ":" ++ p.name) := by
  refine ⟨fun h => ?_, fun h => ?_, fun h hg => ?_⟩
  · simp [ciaoKey, h]
  · simp [ciaoKey, h]
  · simp [ciaoKey, h, hg]

/-- Witness for C9's amended statement: a nonzero group keys as
`'{group}:{name}'`. -/
theorem c9_param_key_amended_witness :
    ciaoKey (.valueParameter (Option.some 2) "Z scale" .none .none (.int 1)) = "2:Z scale" :=
  (c9_param_key_amended (.valueParameter (Option.some 2) "Z scale" .none .none (.int 1)) 2).2.2
    rfl (by decide)

/-- C8 as amended: physical extents divide the scan size by the aspect
components in header order — `height = scan_size / first_component` and
`width = scan_size / second_component` (for the string read as `w:h`, that
is height = scan/aspect_x and width = scan/aspect_y, the opposite
assignment to the claim's formula); pixel spacing is extent over the pixel
count of the axis, and the axes are the evenly spaced vectors from 0 to
each extent. -/
theorem c8_extents_amended (fb : List ℕ) (h : Header) (i : ℕ) (img : CIAOImage)
    (ih : PDict HVal) (raw : List (List ℤ))
    (tg : Option ℤ) (tn : String) (tint ted : PyValue) (scanSec : PDict HVal)
    (sz : ℚ) (u : String) (aStr : String) (ar : List ℚ) (a0 a1 : ℚ)
    (hih : h.imageList.get? i = Option.some ih)
    (hraw : rawImageFromBytes fb ih = .ok raw)
    (htitle : ih.get? "2:Image Data" =
      Option.some (.param (.selectParameter tg tn tint ted)))
    (hscansec : PDict.get? (nonImageSections h) "Ciao scan list" = Option.some scanSec)
    (hscan : scanSec.get? "Scan Size" = Option.some (.val (.quantity sz u)))
    (ha : PDict.get? (imageFlatOf (nonImageSections h) ih) "Aspect Ratio" =
      Option.some (.val (.str aStr)))
    (har : ((pyStrip aStr).splitOn ":").mapM pyFloatOfString = .ok ar)
    (ha0 : ar.get? 0 = Option.some a0) (ha1 : ar.get? 1 = Option.some a1)
    (h0 : a0 ≠ 0) (h1 : a1 ≠ 0)
    (hr : raw.length ≠ 0) (hc : (raw.headD []).length ≠ 0)
    (hinit : ciaoImageInit fb h i = .ok img) :
    img.rawImage = raw ∧
    img.scanSize = .quantity sz u ∧
    img.height = .quantity (sz / a0) u ∧
    img.width = .quantity (sz / a1) u ∧
    img.pxSizeY = .quantity (sz / a0 / raw.length) u ∧
    img.pxSizeX = .quantity (sz / a1 / (raw.headD []).length) u ∧
    img.yAxis = .quantityList (linQ (sz / a0) raw.length) u ∧
    img.xAxis = .quantityList (linQ (sz / a1) (raw.headD []).length) u := by
  have hrq : (raw.length : ℚ) ≠ 0 := by exact_mod_cast hr
  have hcq : ((raw.headD []).length : ℚ) ≠ 0 := by exact_mod_cast hc
  simp only [ciaoImageInit, hih, hraw, htitle, hscansec, hscan, CIAOImage.getItem,
    CIAOImage.flatHeader, ha, HVal.asStr, har, ha0, ha1, pyDivByQ, h0, h1, hrq, hcq,
    linspacePy, bind, Except.bind, pure, Except.pure] at hinit
  simp only [if_false] at hinit
  simp only [Except.ok.injEq] at hinit
  subst hinit
  exact ⟨rfl, rfl, rfl, rfl, rfl, rfl, rfl, rfl⟩

/-- C8, counterexample: for aspect ratio `'1:2'` (a `width:height` string
has aspect_x = 1 first and aspect_y = 2 second) with scan size 100 µm, the
code computes height = 100 µm = scan_size / first component and width =
50 µm — not height = scan_size / aspect_y = 50 µm as the claim's formula
requires. -/
theorem c8_aspect_counterexample :
    ciaoImageInit c8File c8Hdr 0 = .ok c8Img ∧
    c8Img.height = .quantity 100 "µm" ∧
    c8Img.width = .quantity 50 "µm" ∧
    ¬(c8Img.height = .quantity (100 / 2 : ℚ) "µm") := by
  refine ⟨?_, ?_, ?_, ?_⟩ <;> with_unfolding_all decide

/-- Witness for C8's amended statement on the aspect-`1:2` sample file. -/
theorem c8_extents_amended_witness :
    c8Img.rawImage = c8Raw ∧
    c8Img.scanSize = .quantity 100 "µm" ∧
    c8Img.height = .quantity ((100 : ℚ) / 1) "µm" ∧
    c8Img.width = .quantity ((100 : ℚ) / 2) "µm" ∧
    c8Img.pxSizeY = .quantity ((100 : ℚ) / 1 / c8Raw.length) "µm" ∧
    c8Img.pxSizeX = .quantity ((100 : ℚ) / 2 / (c8Raw.headD []).length) "µm" ∧
    c8Img.yAxis = .quantityList (linQ ((100 : ℚ) / 1) c8Raw.length) "µm" ∧
    c8Img.xAxis = .quantityList (linQ ((100 : ℚ) / 2) (c8Raw.headD []).length) "µm" :=
  c8_extents_amended c8File c8Hdr 0 c8Img c8Ih c8Raw (Option.some 2) "Image Data"
    (.str "Height") (.str "Height") c8ScanSec 100 "µm" "1:2" [1, 2] 1 2
    (by with_unfolding_all decide) (by with_unfolding_all decide)
    (by with_unfolding_all decide) (by with_unfolding_all decide)
    (by with_unfolding_all decide) (by with_unfolding_all decide)
    (by with_unfolding_all decide) (by with_unfolding_all decide)
    (by with_unfolding_all decide) (by norm_num) (by norm_num)
    (by with_unfolding_all decide) (by with_unfolding_all decide)
    (by with_unfolding_all decide)

theorem getIntField_set_ne (d : PDict HVal) (k k' : String) (v : HVal) (h : ¬(k = k')) :
    getIntField (PDict.set d k' v) k = getIntField d k := by
  unfold getIntField
  rw [PDict.get?_set, if_neg h]

theorem decode_reshape_reverse (fb : List ℕ) (o R C w : ℕ) :
    (reshapeRows (decodePixels ((fb.take (o + R * C * w)).drop o) (R * C) w) R C).reverse =
      specDecodedImage fb o R C w := by
  have hlen1 : (reshapeRows (decodePixels ((fb.take (o + R * C * w)).drop o) (R * C) w) R C).length
      = R := by
    simp [reshapeRows]
  apply List.ext_getElem?
  intro r
  by_cases hr : r < R
  · rw [List.getElem?_reverse (by rw [hlen1]; exact hr), hlen1]
    have hr1 : R - 1 - r < R := by omega
    simp only [reshapeRows, specDecodedImage, List.getElem?_map, List.getElem?_range hr1,
      List.getElem?_range hr, Option.map_some', Option.some.injEq]
    apply List.ext_getElem?
    intro c
    by_cases hc : c < C
    · have hi : (R - 1 - r) * C + c < R * C := by
        have h1 : (R - 1 - r) * C + c < (R - 1 - r + 1) * C := by
          rw [Nat.succ_mul]; omega
        have h2 : (R - 1 - r + 1) * C ≤ R * C := Nat.mul_le_mul_right C (by omega)
        omega
      have hiw : ((R - 1 - r) * C + c) * w + w ≤ R * C * w := by
        have h3 := Nat.mul_le_mul_right w (Nat.succ_le_of_lt hi)
        rw [Nat.succ_mul] at h3
        omega
      simp only [decodePixels, List.getElem?_take, hc, if_true, List.getElem?_drop,
        List.getElem?_map, List.getElem?_range hi, List.getElem?_range hc, Option.map_some',
        Option.some.injEq]
      rw [List.drop_drop, List.drop_take, List.take_take, min_eq_left (by omega)]
    · rw [List.getElem?_eq_none (by simp [List.length_take]; omega),
        List.getElem?_eq_none (by simp; omega)]
  · rw [List.getElem?_eq_none (by rw [List.length_reverse, hlen1]; omega),
      List.getElem?_eq_none (by simp [specDecodedImage]; omega)]

/-- C2: the pixel decoder derives the per-pixel byte width as
`Data length // (rows × columns)` and ignores the declared `Bytes/pixel`
field entirely (conjuncts 1 and 2); a derived width other than 2, 4 or 8 is
a decode error (conjunct 3); and for a valid width the decoded image equals
the claim's description — the byte range `[offset, offset+length)` decoded
as row-major little-endian signed integers of the derived width, reshaped
to rows × columns with the row order reversed (conjunct 4). -/
theorem c2_pixel_decoder (fb : List ℕ) (ih : PDict HVal) (dl off nr nc : ℤ)
    (hdl : PDict.get? ih "Data length" = Option.some (.val (.int dl)))
    (hoff : PDict.get? ih "Data offset" = Option.some (.val (.int off)))
    (hnr : PDict.get? ih "Number of lines" = Option.some (.val (.int nr)))
    (hnc : PDict.get? ih "Samps/line" = Option.some (.val (.int nc))) :
    (nr * nc ≠ 0 → bytesPerPixel ih = .ok (Int.fdiv dl (nr * nc))) ∧
    (∀ v, rawImageFromBytes fb (PDict.set ih "Bytes/pixel" v) = rawImageFromBytes fb ih) ∧
    (nr * nc ≠ 0 →
      ¬(Int.fdiv dl (nr * nc) = 2 ∨ Int.fdiv dl (nr * nc) = 4 ∨ Int.fdiv dl (nr * nc) = 8) →
      rawImageFromBytes fb ih =
        .error ("KeyError: " ++ toString (Int.fdiv dl (nr * nc)))) ∧
    (∀ w : ℕ, (w = 2 ∨ w = 4 ∨ w = 8) → Int.fdiv dl (nr * nc) = (w : ℤ) →
      0 ≤ nr → 0 ≤ nc → nr * nc ≠ 0 → 0 ≤ off → 0 ≤ dl →
      off.toNat + dl.toNat ≤ fb.length → dl.toNat = (nr * nc).toNat * w →
      rawImageFromBytes fb ih = .ok (specDecodedImage fb off.toNat nr.toNat nc.toNat w)) := by
  have hbpp : nr * nc ≠ 0 → bytesPerPixel ih = .ok (Int.fdiv dl (nr * nc)) := by
    intro hnz
    simp [bytesPerPixel, getIntField, hdl, hnr, hnc, hnz, bind, Except.bind, pure, Except.pure]
  refine ⟨hbpp, ?_, ?_, ?_⟩
  · intro v
    have h1 := getIntField_set_ne ih "Data length" "Bytes/pixel" v (by decide)
    have h2 := getIntField_set_ne ih "Data offset" "Bytes/pixel" v (by decide)
    have h3 := getIntField_set_ne ih "Number of lines" "Bytes/pixel" v (by decide)
    have h4 := getIntField_set_ne ih "Samps/line" "Bytes/pixel" v (by decide)
    simp only [rawImageFromBytes, bytesPerPixel, h1, h2, h3, h4]
  · intro hnz hnot
    simp only [rawImageFromBytes, getIntField, hdl, hoff, hnr, hnc, bytesPerPixel,
      bind, Except.bind, pure, Except.pure, hnz, if_false, if_neg hnot]
  · intro w hw hwv hnr0 hnc0 hnz hoff0 hdl0 hbound hdlw
    have hcond : Int.fdiv dl (nr * nc) = 2 ∨ Int.fdiv dl (nr * nc) = 4 ∨
        Int.fdiv dl (nr * nc) = 8 := by
      rw [hwv]
      rcases hw with h | h | h <;> subst h <;> simp
    have htr : (nr.toNat : ℤ) = nr := Int.toNat_of_nonneg hnr0
    have htc : (nc.toNat : ℤ) = nc := Int.toNat_of_nonneg hnc0
    have hprod : (nr * nc).toNat = nr.toNat * nc.toNat := by
      have hcast : ((nr.toNat * nc.toNat : ℕ) : ℤ) = nr * nc := by push_cast [htr, htc]; ring
      omega
    have hdlw2 : dl.toNat = nr.toNat * nc.toNat * w := by rw [hdlw, hprod]
    have hoffle : off ≤ (fb.length : ℤ) := by omega
    have hodle : off + dl ≤ (fb.length : ℤ) := by omega
    have hslice : pySlice fb off (off + dl) =
        (fb.take (off.toNat + dl.toNat)).drop off.toNat := by
      simp only [pySlice]
      rw [if_neg (by omega : ¬(off + dl < 0)), if_neg (by omega : ¬(off < 0)),
        min_eq_left hodle, min_eq_left hoffle,
        (by omega : (off + dl).toNat = off.toNat + dl.toNat)]
    have hslice_len : (pySlice fb off (off + dl)).length = dl.toNat := by
      rw [hslice]
      simp only [List.length_drop, List.length_take]
      omega
    have hcond2 : ((w : ℤ) = 2 ∨ (w : ℤ) = 4 ∨ (w : ℤ) = 8) := hwv ▸ hcond
    simp only [rawImageFromBytes, getIntField, hdl, hoff, hnr, hnc, bytesPerPixel,
      bind, Except.bind, pure, Except.pure, hnz, if_false, hwv]
    rw [if_pos hcond2, Int.toNat_natCast, hprod]
    rw [if_pos ⟨by rw [hslice_len]; exact hdlw2, mul_nonneg hnr0 hnc0⟩]
    rw [hslice]
    have harg : off.toNat + dl.toNat = off.toNat + nr.toNat * nc.toNat * w := by
      rw [hdlw2]
    rw [harg, decode_reshape_reverse fb off.toNat nr.toNat nc.toNat w]

/-- Witness for C2 on the sample file: the measured width is
`8 // (2 · 2) = 2` bytes (despite the header's declared `Bytes/pixel: 4`),
and the decoded image is the spec-side description. -/
theorem c2_pixel_decoder_witness :
    bytesPerPixel c8Ih = .ok (Int.fdiv 8 (2 * 2)) ∧
    rawImageFromBytes c8File c8Ih = .ok (specDecodedImage c8File 400 2 2 2) := by
  have h := c2_pixel_decoder c8File c8Ih 8 400 2 2 (by with_unfolding_all decide)
    (by with_unfolding_all decide) (by with_unfolding_all decide) (by with_unfolding_all decide)
  exact ⟨h.1 (by decide),
    h.2.2.2 2 (Or.inl rfl) (by decide) (by decide) (by decide) (by decide) (by decide)
      (by decide) (by with_unfolding_all decide) (by decide)⟩

theorem commitSection_imageList_length (st : ParseState) :
    (commitSection st).imageList.length =
      st.imageList.length +
        (if st.currentSection = Option.some "Ciao image list" then 1 else 0) := by
  unfold commitSection
  by_cases hc : st.currentSection = Option.some "Ciao image list"
  · simp [hc]
  · cases hcur : st.currentSection <;> simp [hcur] at hc ⊢
    simp [hc]

theorem commitSection_currentSection (st : ParseState) :
    (commitSection st).currentSection = st.currentSection := by
  obtain ⟨se, il, cs, ch⟩ := st
  cases cs with
  | none => rfl
  | some s =>
    by_cases hs : (Option.some s = Option.some "Ciao image list")
    · rw [commitSection, if_pos hs]
    · rw [commitSection, if_neg hs]

/-- The loop invariant behind C5: when the line list still contains the end
sentinel, a successful parse ends with exactly one image record per
`Ciao image list` marker encountered before the sentinel (plus the records
already committed and the one still open, if any). -/
theorem parse_image_count (lines : List (List ℕ)) (st : ParseState) (h : Header)
    (hok : parseHeaderLines lines st = .ok h)
    (hsent : (lines.any fun lb => decide (lb = fileListEndBytes)) = true) :
    h.imageList.length =
      st.imageList.length +
        (if st.currentSection = Option.some "Ciao image list" then 1 else 0) +
        countImageMarkers lines := by
  induction lines generalizing st with
  | nil => simp at hsent
  | cons lb rest ih =>
    by_cases hend : lb = fileListEndBytes
    · subst hend
      have hstar : (pyLStripChar '\\' (decodeLatin1 fileListEndBytes)).startsWith "*" = true := by
        with_unfolding_all decide
      rw [parseHeaderLines, if_pos hstar, if_pos rfl] at hok
      cases hok
      rw [countImageMarkers, if_pos rfl, commitSection_imageList_length]
      omega
    · rw [countImageMarkers, if_neg hend]
      have hsent' : (rest.any fun lb => decide (lb = fileListEndBytes)) = true := by
        rcases List.any_eq_true.mp hsent with ⟨x, hx, hxe⟩
        rcases List.mem_cons.mp hx with hx1 | hx1
        · exact absurd (hx1 ▸ of_decide_eq_true hxe) hend
        · exact List.any_eq_true.mpr ⟨x, hx1, hxe⟩
      by_cases hstar : (pyLStripChar '\\' (decodeLatin1 lb)).startsWith "*"
      · rw [parseHeaderLines, if_pos hstar, if_neg hend] at hok
        have hthis := ih _ hok hsent'
        dsimp only at hthis
        rw [hthis, commitSection_imageList_length]
        by_cases hciao :
            pyStripChar '*' (pyLStripChar '\\' (decodeLatin1 lb)) = "Ciao image list"
        · have hmark : isImageMarkerLine lb = true := by
            simp [isImageMarkerLine, hstar, hciao]
          have hone : (if isImageMarkerLine lb = true then (1 : ℕ) else 0) = 1 := by
            rw [hmark]; decide
          rw [hone, if_pos (congrArg Option.some hciao)]
          omega
        · have hmark : isImageMarkerLine lb = false := by
            simp [isImageMarkerLine, hstar, hciao]
          have hzero : (if isImageMarkerLine lb = true then (1 : ℕ) else 0) = 0 := by
            rw [hmark]; decide
          have hne : ¬(Option.some (pyStripChar '*' (pyLStripChar '\\' (decodeLatin1 lb))) =
              Option.some "Ciao image list") := by
            intro hcc
            injection hcc with hcc
            exact hciao hcc
          rw [hzero, if_neg hne]
          omega
      · have hmark : isImageMarkerLine lb = false := by
          simp [isImageMarkerLine, hstar]
        have hzero : (if isImageMarkerLine lb = true then (1 : ℕ) else 0) = 0 := by
          rw [hmark]; decide
        by_cases hat : (pyLStripChar '\\' (decodeLatin1 lb)).startsWith "@"
        · rw [parseHeaderLines, if_neg hstar, if_pos hat] at hok
          cases hfs : fromString (pyLStripChar '\\' (decodeLatin1 lb)) with
          | error e => rw [hfs] at hok; cases hok
          | ok p =>
            rw [hfs] at hok
            have hthis := ih _ hok hsent'
            dsimp only at hthis
            rw [hthis, hzero]
            omega
        · rw [parseHeaderLines, if_neg hstar, if_neg hat] at hok
          cases hsp : splitOnceColon (pyLStripChar '\\' (decodeLatin1 lb)) with
          | none => rw [hsp] at hok; cases hok
          | some kv =>
            obtain ⟨key, value⟩ := kv
            rw [hsp] at hok
            dsimp only at hok
            cases hpv : parseParameterValue (Option.some value) with
            | error e => rw [hpv] at hok; cases hok
            | ok v =>
              rw [hpv] at hok
              dsimp only at hok
              have hthis := ih _ hok hsent'
              dsimp only at hthis
              rw [hthis, hzero]
              omega

theorem extractTrace_length (header : Header) (bts : List ℕ) (l : List (PDict HVal)) (i : ℕ)
    (imgs : List (PyValue × CIAOImage)) (hok : extractTrace header bts l i = .ok imgs) :
    imgs.length = l.length := by
  induction l generalizing i imgs with
  | nil => cases hok; rfl
  | cons ih rest ihh =>
    rw [extractTrace] at hok
    cases himg : ciaoImageInit bts header i with
    | error e => rw [himg] at hok; cases hok
    | ok img =>
      rw [himg] at hok
      cases hkey : PDict.get? ih "2:Image Data" with
      | none => simp [hkey, bind, Except.bind, pure, Except.pure] at hok
      | some kv =>
        cases kv with
        | val v => simp [hkey, bind, Except.bind, pure, Except.pure] at hok
        | param p =>
          cases p with
          | valueParameter g n ss hs hv =>
            simp [hkey, bind, Except.bind, pure, Except.pure] at hok
          | scaleParameter g n ss hv =>
            simp [hkey, bind, Except.bind, pure, Except.pure] at hok
          | selectParameter g n intd ed =>
            cases htail : extractTrace header bts rest (i + 1) with
            | error e =>
              simp [hkey, htail, bind, Except.bind, pure, Except.pure] at hok
            | ok tail =>
              simp only [hkey, htail, bind, Except.bind, pure, Except.pure] at hok
              cases hok
              simp [ihh _ _ htail]

/-- C5: for every decoded file whose header carries the end sentinel, the
number of per-image header records collected from the repeating
`Ciao image list` sections equals both the number of `Ciao image list`
markers before the sentinel (each recurrence appends one record) and the
number of decoded images produced by `extract_ciao_images` (exactly one
image is constructed per record). -/
theorem c5_records_equal_images (bts : List ℕ) (h : Header)
    (imgs : List (PyValue × CIAOImage))
    (hparse : parseHeader bts = .ok h)
    (hsent : ((splitLinesB bts []).any fun lb => decide (lb = fileListEndBytes)) = true)
    (htrace : extractTrace h bts h.imageList 0 = .ok imgs) :
    imgs.length = h.imageList.length ∧
    h.imageList.length = countImageMarkers (splitLinesB bts []) := by
  constructor
  · exact extractTrace_length h bts h.imageList 0 imgs htrace
  · have := parse_image_count (splitLinesB bts []) _ h hparse hsent
    simpa using this

/-- Witness for C5 on the sample file: one marker, one record, one image. -/
theorem c5_records_equal_images_witness :
    c8Trace.length = c8Hdr.imageList.length ∧
    c8Hdr.imageList.length = countImageMarkers (splitLinesB c8File []) :=
  c5_records_equal_images c8File c8Hdr c8Trace (by with_unfolding_all decide)
    (by with_unfolding_all decide) (by with_unfolding_all decide)

/-- C3, counterexample: in the `Sens. Foo` sample file the soft-scale
reference is recorded neither in the image's own header section nor in the
scan-level section — only in the `File list` section — yet image
construction succeeds and the image property produces the scaled matrix
raw × 1.2 × 7.0 / 2¹⁶, where the claim requires a hard
`UnresolvedReferenceError` once the image and scan sections miss the key. -/
theorem c3_resolution_counterexample :
    ciaoImageInit c3File c3Hdr 0 = .ok c3LitImg ∧
    PDict.get? c3LitImg.imageHeader "Sens. Foo" = Option.none ∧
    PDict.get? ((PDict.get? c3LitImg.fileSections "Ciao scan list").getD ∅)
      "Sens. Foo" = Option.none ∧
    CIAOImage.image c3LitImg =
      .ok [[525 / 4096, -(525 / 4096)], [21 / 640, -(21 / 640)]] := by
  refine ⟨?_, ?_, ?_, ?_⟩
  · with_unfolding_all decide
  · with_unfolding_all decide
  · with_unfolding_all decide
  · with_unfolding_all rfl

/-- C3 as amended: resolution of a soft-scale name looks in the image's own
header first (its entries take precedence), then in the merged non-image
file-level sections — later sections overriding earlier ones, the
scan-level section among them — and a name found nowhere in that flat
mapping is a hard `KeyError`, so an image whose truthy soft-scale reference
resolves nowhere raises instead of producing an unscaled image. -/
theorem c3_resolution_amended (img : CIAOImage) (s e : String) (g : Option ℤ) (n : String)
    (hs hv : PyValue) (bpp : ℤ)
    (hz : CIAOImage.getItem img "2:Z scale" =
      .ok (.param (.valueParameter g n (.str s) hs hv)))
    (hsne : s ≠ "")
    (hbpp : bytesPerPixel img.imageHeader = .ok bpp)
    (hmiss : CIAOImage.getItem img s = .error e) :
    (∀ k, CIAOImage.getItem img k =
      match (PDict.getLast? img.imageHeader k).or
          (img.fileSections.reverse.findSome? fun kv => PDict.getLast? kv.2 k) with
      | Option.some v => .ok v
      | Option.none => .error ("KeyError: " ++ k)) ∧
    CIAOImage.image img = .error e := by
  constructor
  · intro k
    rw [CIAOImage.getItem, CIAOImage.flatHeader, imageFlatOf, PDict.get?_update,
      PDict.get?_foldl_update]
    have hnone : PDict.get? (∅ : PDict HVal) k = Option.none := rfl
    rw [hnone, Option.or_none]
  · have htr : (PyValue.str s).truthy = true := by simp [PyValue.truthy, hsne]
    simp only [CIAOImage.image, hz, HVal.softScaleAttr, hbpp, htr, hmiss,
      bind, Except.bind, pure, Except.pure, if_true]

/-- Witness for C3's amended statement: a Z-scale referencing the unknown
name `Sens. Baz` makes the image property raise a `KeyError`. -/
theorem c3_resolution_amended_witness :
    (CIAOImage.getItem c3WitnessImg "Sens. Baz" =
      match (PDict.getLast? c3WitnessImg.imageHeader "Sens. Baz").or
          (c3WitnessImg.fileSections.reverse.findSome? fun kv =>
            PDict.getLast? kv.2 "Sens. Baz") with
      | Option.some v => .ok v
      | Option.none => .error ("KeyError: " ++ "Sens. Baz")) ∧
    CIAOImage.image c3WitnessImg = .error "KeyError: Sens. Baz" := by
  have h := c3_resolution_amended c3WitnessImg "Sens. Baz" "KeyError: Sens. Baz"
    (Option.some 2) "Z scale" PyValue.none (.quantity (6 / 5) "V") 2
    (by with_unfolding_all decide) (by decide)
    (by with_unfolding_all decide) (by with_unfolding_all decide)
  exact ⟨h.1 "Sens. Baz", h.2⟩

/-- The legacy sentinel search finds nothing when no line byte-strips to the
end sentinel. -/
theorem emlFind_eq_none (ls : List (List ℕ)) :
    ∀ (i : ℕ) (st : Option ℕ),
      (∀ lb ∈ ls, stripWhile isPySpaceByte lb ≠ fileListEndBytes) →
      emlFind ls i st = Option.none := by
  induction ls with
  | nil => intro i st _; rfl
  | cons lb rest ih =>
    intro i st h
    have h1 : stripWhile isPySpaceByte lb ≠ fileListEndBytes :=
      h lb (List.mem_cons_self lb rest)
    have hr : ∀ x ∈ rest, stripWhile isPySpaceByte x ≠ fileListEndBytes :=
      fun x hx => h x (List.mem_cons_of_mem lb hx)
    rw [emlFind]
    by_cases hs : stripWhile isPySpaceByte lb = fileListStartBytes
    · rw [if_pos hs]
      exact ih (i + 1) (Option.some i) hr
    · rw [if_neg hs, if_neg h1]
      exact ih (i + 1) st hr

/-- The `parse_header` loop returns a header (never an exception) whenever
every line is individually well formed, even with no end sentinel in
sight. -/
theorem parseHeaderLines_isOk (ls : List (List ℕ)) :
    ∀ st : ParseState,
      (∀ lb ∈ ls, lineOk lb = true) →
      (parseHeaderLines ls st).isOk = true := by
  induction ls with
  | nil => intro st _; rfl
  | cons lb rest ih =>
    intro st hok
    have hok1 : lineOk lb = true := hok lb (List.mem_cons_self lb rest)
    have hokr : ∀ x ∈ rest, lineOk x = true :=
      fun x hx => hok x (List.mem_cons_of_mem lb hx)
    by_cases h1 : (pyLStripChar '\\' (decodeLatin1 lb)).startsWith "*"
    · by_cases hend : lb = fileListEndBytes
      · rw [parseHeaderLines, if_pos h1, if_pos hend]
        rfl
      · rw [parseHeaderLines, if_pos h1, if_neg hend]
        exact ih _ hokr
    · by_cases h2 : (pyLStripChar '\\' (decodeLatin1 lb)).startsWith "@"
      · unfold lineOk at hok1
        rw [if_neg h1, if_pos h2] at hok1
        cases hfs : fromString (pyLStripChar '\\' (decodeLatin1 lb)) with
        | error e => rw [hfs] at hok1; cases hok1
        | ok p =>
          rw [parseHeaderLines, if_neg h1, if_pos h2, hfs]
          exact ih _ hokr
      · unfold lineOk at hok1
        rw [if_neg h1, if_neg h2] at hok1
        cases hsc : splitOnceColon (pyLStripChar '\\' (decodeLatin1 lb)) with
        | none => rw [hsc] at hok1; cases hok1
        | some kv =>
          obtain ⟨k, v⟩ := kv
          rw [hsc] at hok1
          dsimp only at hok1
          cases hpv : parseParameterValue (Option.some v) with
          | error e => rw [hpv] at hok1; cases hok1
          | ok pr =>
            obtain ⟨pv, diag⟩ := pr
            rw [parseHeaderLines, if_neg h1, if_neg h2, hsc]
            dsimp only
            rw [hpv]
            exact ih _ hokr

/-- C6, counterexample: a file with no `\*File list end` line at all, on
which the current `parse_header` raises nothing and returns the partial
header assembled so far (the still-open section silently dropped), while
only the legacy standalone loader's `extract_metadata_lines` raises the
missing-sentinel `ValueError`. -/
theorem c6_no_sentinel_counterexample :
    fileListEndBytes ∉ splitLinesB c6File [] ∧
    parseHeader c6File =
      .ok { sections := [("File list", [("Version", HVal.val (.str "0x09400202"))])]
            imageList := [] } ∧
    extractMetadataLines c6File =
      .error "Beginning or end of \"\\*File list\" missing, cannot extract metadata" := by
  refine ⟨?_, ?_, ?_⟩ <;> with_unfolding_all decide

/-- C6 as amended: when no header line byte-strips to the end sentinel,
the current `parse_header` still succeeds whenever every line is
individually well formed — the partial header is returned and no error is
raised — whereas the legacy `extract_metadata_lines` is the function that
fails with the missing-sentinel `ValueError`. -/
theorem c6_missing_sentinel_amended (bts : List ℕ)
    (hn : ∀ lb ∈ splitLinesB bts [],
      stripWhile isPySpaceByte lb ≠ fileListEndBytes)
    (hok : ∀ lb ∈ splitLinesB bts [], lineOk lb = true) :
    (parseHeader bts).isOk = true ∧
    extractMetadataLines bts =
      .error "Beginning or end of \"\\*File list\" missing, cannot extract metadata" := by
  constructor
  · exact parseHeaderLines_isOk _ _ hok
  · rw [extractMetadataLines, emlFind_eq_none (splitLinesB bts []) 0 Option.none hn]

/-- Witness for C6's amended statement: the sentinel-free sample file
parses to a header while the legacy extractor raises the `ValueError`. -/
theorem c6_missing_sentinel_amended_witness :
    (parseHeader c6File).isOk = true ∧
    extractMetadataLines c6File =
      .error "Beginning or end of \"\\*File list\" missing, cannot extract metadata" :=
  c6_missing_sentinel_amended c6File
    (by with_unfolding_all decide) (by with_unfolding_all decide)

/-- C1: whenever the Z-scale Value parameter carries a (truthy) soft-scale
reference that the flat header resolves, the physical image is the raw
integer array times the Z-scale hard value times the resolved parameter's
hard value, divided by 2^(8 · bytes_per_pixel) with bytes_per_pixel
measured as data length // (rows · columns) — never the header's declared
`Bytes/pixel` field. -/
theorem c1_physical_scaling (img : CIAOImage) (g : Option ℤ) (n s : String)
    (hs hv shvv : PyValue) (sens : HVal) (hvq svq : ℚ) (dl nr nc : ℤ)
    (hz : CIAOImage.getItem img "2:Z scale" =
      .ok (.param (.valueParameter g n (.str s) hs hv)))
    (hsne : s ≠ "")
    (hdl : getIntField img.imageHeader "Data length" = .ok dl)
    (hnr : getIntField img.imageHeader "Number of lines" = .ok nr)
    (hnc : getIntField img.imageHeader "Samps/line" = .ok nc)
    (hpx : ¬ nr * nc = 0)
    (hsens : CIAOImage.getItem img s = .ok sens)
    (hhv : pyMag hv = .ok hvq)
    (hsv : sens.hardValueAttr = .ok shvv)
    (hsq : pyMag shvv = .ok svq) :
    CIAOImage.image img =
      .ok (img.rawImage.map fun row => row.map fun r =>
        (r : ℚ) * hvq * svq / (2 : ℚ) ^ (8 * Int.fdiv dl (nr * nc))) := by
  have hbpp : bytesPerPixel img.imageHeader = .ok (Int.fdiv dl (nr * nc)) := by
    simp only [bytesPerPixel, hdl, hnr, hnc, bind, Except.bind]
    rw [if_neg hpx]
  have htr : (PyValue.str s).truthy = true := by simp [PyValue.truthy, hsne]
  have hz2 : HVal.hardValueAttr
      (HVal.param (CIAOParameter.valueParameter g n (PyValue.str s) hs hv)) =
        .ok hv := rfl
  simp only [CIAOImage.image, hz, HVal.softScaleAttr, hbpp, htr, hsens, hz2,
    hsv, hhv, hsq, bind, Except.bind, pure, Except.pure, if_true]

/-- Witness for C1 on the aspect-`1:2` sample file: 1.2 V hard value,
5.0 nm/V sensitivity, 2 measured bytes per pixel. -/
theorem c1_physical_scaling_witness :
    CIAOImage.image c8Img =
      .ok (c8Img.rawImage.map fun row => row.map fun r =>
        (r : ℚ) * (6 / 5) * 5 / (2 : ℚ) ^ (8 * Int.fdiv 8 (2 * 2))) :=
  c1_physical_scaling c8Img (Option.some 2) "Z scale" "Sens. Zsens"
    (.quantity (1 / 2) "V/LSB") (.quantity (6 / 5) "V") (.quantity 5 "nm/V")
    (.param (.valueParameter Option.none "Sens. Zsens" PyValue.none PyValue.none
      (.quantity 5 "nm/V")))
    (6 / 5) 5 8 2 2
    (by with_unfolding_all decide) (by decide)
    (by with_unfolding_all decide) (by with_unfolding_all decide)
    (by with_unfolding_all decide) (by decide)
    (by with_unfolding_all decide) (by with_unfolding_all decide)
    (by with_unfolding_all decide) (by with_unfolding_all decide)

/-- C4, counterexample: the Scale line `\@2:Z magnify: C [2:Z scale] 0.6`
is accepted by the grammar, but `ScaleParameter.ciao_string` inserts a
stray space between the group prefix and the name, so re-parsing the
serialized line yields a parameter whose name gained a leading space — the
round trip is not the identity on the Scale variant. -/
theorem c4_roundtrip_counterexample :
    fromString "\\@2:Z magnify: C [2:Z scale] 0.6" =
      .ok (.scaleParameter (Option.some 2) "Z magnify"
        (.str "2:Z scale") (.float (3 / 5))) ∧
    CIAOParameter.ciao_string (.scaleParameter (Option.some 2) "Z magnify"
        (.str "2:Z scale") (.float (3 / 5))) =
      "\\@2: Z magnify: C [2:Z scale] 0.6" ∧
    fromString (CIAOParameter.ciao_string (.scaleParameter (Option.some 2)
        "Z magnify" (.str "2:Z scale") (.float (3 / 5)))) =
      .ok (.scaleParameter (Option.some 2) " Z magnify"
        (.str "2:Z scale") (.float (3 / 5))) ∧
    ¬ fromString (CIAOParameter.ciao_string (.scaleParameter (Option.some 2)
        "Z magnify" (.str "2:Z scale") (.float (3 / 5)))) =
      .ok (.scaleParameter (Option.some 2) "Z magnify"
        (.str "2:Z scale") (.float (3 / 5))) := by
  refine ⟨?_, ?_, ?_, ?_⟩ <;> with_unfolding_all decide

/-- `splitsAsc` enumerates the (take, drop) splits by position. -/
theorem splitsAsc_eq_map_range (l : List Char) :
    splitsAsc l = (List.range (l.length + 1)).map fun i => (l.take i, l.drop i) := by
  induction l with
  | nil => rfl
  | cons c cs ih =>
    rw [splitsAsc, ih]
    simp only [List.length_cons, List.range_succ_eq_map, List.map_cons, List.map_map]
    rfl

/-- Scanning `findSome?` over `n, n-1, …, 0` returns the value at `k` when
every index above `k` yields nothing. -/
theorem findSomeTopDown {β : Type} (g : ℕ → Option β) :
    ∀ (n k : ℕ) (r : β), k ≤ n →
      (∀ i, k < i → i ≤ n → g i = Option.none) → g k = Option.some r →
      (List.range (n + 1)).reverse.findSome? g = Option.some r := by
  intro n
  induction n with
  | zero =>
    intro k r hk hnone hg
    have hk0 : k = 0 := Nat.le_zero.mp hk
    subst hk0
    rw [show (List.range 1).reverse = [0] from rfl, List.findSome?_cons, hg]
  | succ n ih =>
    intro k r hk hnone hg
    rw [List.range_succ, List.reverse_append, List.reverse_singleton,
      List.singleton_append, List.findSome?_cons]
    rcases Nat.lt_or_ge k (n + 1) with hlt | hge
    · have hN : g (n + 1) = Option.none := hnone _ (by omega) (le_refl _)
      rw [hN]
      exact ih k r (by omega) (fun i h1 h2 => hnone i h1 (by omega)) hg
    · have hkn : k = n + 1 := by omega
      subst hkn
      rw [hg]

/-- The greedy `findSome?` over longest-first splits of `a ++ b` returns the
value at the designated split when every strictly longer front fails (the
failure of a candidate depends only on its remainder). -/
theorem findSome_splitsDesc {β : Type} (f : List Char × List Char → Option β)
    (a b : List Char) (r : β)
    (hall : ∀ (x : List Char) (k : ℕ), 0 < k → k ≤ b.length →
      f (x, b.drop k) = Option.none)
    (hhit : f (a, b) = Option.some r) :
    (splitsDesc (a ++ b)).findSome? f = Option.some r := by
  rw [splitsDesc, splitsAsc_eq_map_range, ← List.map_reverse, List.findSome?_map,
    List.length_append]
  have hdrop : ∀ k, (a ++ b).drop (a.length + k) = b.drop k := by
    intro k
    rw [List.drop_append]
  refine findSomeTopDown _ (a.length + b.length) a.length r (by omega) ?_ ?_
  · intro i h1 h2
    have hi : i = a.length + (i - a.length) := by omega
    show f ((a ++ b).take i, (a ++ b).drop i) = Option.none
    rw [hi, hdrop]
    exact hall _ _ (by omega) (by omega)
  · show f ((a ++ b).take a.length, (a ++ b).drop a.length) = Option.some r
    rw [List.take_left, List.drop_left]
    exact hhit

/-- If a pattern occurs nowhere in a list, it heads no suffix of it. -/
theorem startsWith_false_of_drop {α : Type} [DecidableEq α] (pat : List α)
    (hpat : pat ≠ []) :
    ∀ (l : List α), listHasInfix pat l = false →
      ∀ i, listStartsWith pat (l.drop i) = false := by
  intro l
  induction l with
  | nil =>
    intro _ i
    rw [List.drop_nil]
    match pat, hpat with
    | p :: ps, _ => rfl
  | cons x xs ih =>
    intro h i
    rw [listHasInfix, Bool.or_eq_false_iff] at h
    match i with
    | 0 => exact h.1
    | i + 1 => exact ih h.2 i

/-- The final `\s.*$` step accepts a leading space. -/
theorem ciaoFinal_space (v : List Char) : ciaoFinal (' ' :: v) = Option.some v := rfl

/-- The final `\s.*$` step rejects a non-space head. -/
theorem ciaoFinal_not_space (c : Char) (v : List Char) (h : isPySpace c = false) :
    ciaoFinal (c :: v) = Option.none := by
  simp [ciaoFinal, h]

/-- A head satisfying `headOkCiao` rejects both arms of the optional
parenthesis group. -/
theorem ciaoParen_not_open (v : List Char) (hh : headOkCiao v = true) :
    ciaoParen v = Option.none := by
  match v, hh with
  | c :: r, hh =>
    simp only [headOkCiao, Bool.and_eq_true, bne_iff_ne, Bool.not_eq_true',
      ne_eq] at hh
    rw [ciaoParen]
    · rw [ciaoFinal_not_space c r hh.1.1]
      rfl
    · intro rest heq
      injection heq with h1 _
      exact hh.1.2 h1

/-- The parenthesis group captures up to the closing parenthesis when the
trailing hard value holds no further one. -/
theorem ciaoParen_closed (h v : List Char) (hp : ')' ∉ v) :
    ciaoParen ('(' :: (h ++ ')' :: ' ' :: v)) = Option.some (Option.some h, v) := by
  have hfind : (splitsDesc (h ++ ')' :: ' ' :: v)).findSome? (fun pr =>
      match pr.2 with
      | ')' :: r2 => (ciaoFinal r2).map fun hv => (Option.some pr.1, hv)
      | _ => Option.none) = Option.some (Option.some h, v) := by
    refine findSome_splitsDesc _ h (')' :: ' ' :: v) _ ?_ ?_
    · intro x k hk1 hk2
      match k, hk1 with
      | 1, _ => rfl
      | k + 2, _ =>
        show (match v.drop k with
          | ')' :: r2 => (ciaoFinal r2).map fun hv => (Option.some x, hv)
          | _ => Option.none) = Option.none
        split
        · rename_i r2 heq
          exact absurd (List.drop_subset _ _ (heq ▸ List.mem_cons_self ')' r2)) hp
        · rfl
    · show (ciaoFinal (' ' :: v)).map (fun hv => (Option.some h, hv)) =
        Option.some (Option.some h, v)
      rw [ciaoFinal_space]
      rfl
  have hstep : ciaoParen ('(' :: (h ++ ')' :: ' ' :: v)) =
      (((splitsDesc (h ++ ')' :: ' ' :: v)).findSome? (fun pr =>
        match pr.2 with
        | ')' :: r2 => (ciaoFinal r2).map fun hv => (Option.some pr.1, hv)
        | _ => Option.none)) <|>
      (ciaoFinal ('(' :: (h ++ ')' :: ' ' :: v))).map fun hv => (Option.none, hv)) := rfl
  rw [hstep, hfind]
  rfl

/-- `\s?` followed by the optional parenthesis group on a bare hard
value: the space is consumed by the mandatory final `\s`. -/
theorem ciaoWs2_space (v : List Char) (hh : headOkCiao v = true) :
    ciaoWs2 (' ' :: v) = Option.some (Option.none, v) := by
  have hstep : ciaoWs2 (' ' :: v) = (ciaoParen v <|> ciaoParen (' ' :: v)) := rfl
  rw [hstep, ciaoParen_not_open v hh]
  have hstep2 : ((Option.none <|> ciaoParen (' ' :: v)) :
      Option (Option (List Char) × List Char)) =
      (ciaoFinal (' ' :: v)).map fun hv => (Option.none, hv) := rfl
  rw [hstep2, ciaoFinal_space]
  rfl

/-- `\s?` followed by a present parenthesis group: the space is consumed
by `\s?` and the group captures the parenthesized hard scale. -/
theorem ciaoWs2_space_paren (h v : List Char) (hp : ')' ∉ v) :
    ciaoWs2 (' ' :: '(' :: (h ++ ')' :: ' ' :: v)) =
      Option.some (Option.some h, v) := by
  have hstep : ciaoWs2 (' ' :: '(' :: (h ++ ')' :: ' ' :: v)) =
      (ciaoParen ('(' :: (h ++ ')' :: ' ' :: v)) <|>
        ciaoParen (' ' :: '(' :: (h ++ ')' :: ' ' :: v))) := rfl
  rw [hstep, ciaoParen_closed h v hp]
  rfl

/-- A head satisfying `headOkCiao` rejects both arms of the second `\s?`. -/
theorem ciaoWs2_headOk_none (v : List Char) (hh : headOkCiao v = true) :
    ciaoWs2 v = Option.none := by
  match v, hh with
  | c :: r, hh =>
    have hh2 := hh
    simp only [headOkCiao, Bool.and_eq_true, bne_iff_ne, Bool.not_eq_true',
      ne_eq] at hh
    have hstep : ciaoWs2 (c :: r) =
        ((if isPySpace c then ciaoParen r else Option.none) <|>
          ciaoParen (c :: r)) := rfl
    rw [hstep, hh.1.1, ciaoParen_not_open (c :: r) hh2]
    rfl

/-- A head satisfying `headOkCiao` rejects both arms of the optional
bracket group. -/
theorem ciaoBracket_headOk_none (v : List Char) (hh : headOkCiao v = true) :
    ciaoBracket v = Option.none := by
  match v, hh with
  | c :: r, hh =>
    have hh2 := hh
    simp only [headOkCiao, Bool.and_eq_true, bne_iff_ne, Bool.not_eq_true',
      ne_eq] at hh
    rw [ciaoBracket]
    · rw [ciaoWs2_headOk_none (c :: r) hh2]
      rfl
    · intro rest heq
      injection heq with h1 _
      exact hh.2 h1

/-- The bracket group captures up to the closing bracket when the rest of
the line holds no further one. -/
theorem ciaoBracket_closed (s rest : List Char) (w : Option (List Char) × List Char)
    (hnb : ']' ∉ rest) (hw : ciaoWs2 rest = Option.some w) :
    ciaoBracket ('[' :: (s ++ ']' :: rest)) = Option.some (Option.some s, w) := by
  have hfind : (splitsDesc (s ++ ']' :: rest)).findSome? (fun pr =>
      match pr.2 with
      | ']' :: r2 => (ciaoWs2 r2).map fun t => (Option.some pr.1, t.1, t.2)
      | _ => Option.none) = Option.some (Option.some s, w) := by
    refine findSome_splitsDesc _ s (']' :: rest) _ ?_ ?_
    · intro x k hk1 hk2
      match k, hk1 with
      | j + 1, _ =>
        show (match rest.drop j with
          | ']' :: r2 => (ciaoWs2 r2).map fun t => (Option.some x, t.1, t.2)
          | _ => Option.none) = Option.none
        split
        · rename_i r2 heq
          exact absurd (List.drop_subset _ _ (heq ▸ List.mem_cons_self ']' r2)) hnb
        · rfl
    · show (ciaoWs2 rest).map (fun t => (Option.some s, t.1, t.2)) =
        Option.some (Option.some s, w)
      rw [hw]
      rfl
  have hstep : ciaoBracket ('[' :: (s ++ ']' :: rest)) =
      (((splitsDesc (s ++ ']' :: rest)).findSome? (fun pr =>
        match pr.2 with
        | ']' :: r2 => (ciaoWs2 r2).map fun t => (Option.some pr.1, t.1, t.2)
        | _ => Option.none)) <|>
      (ciaoWs2 ('[' :: (s ++ ']' :: rest))).map fun t => (Option.none, t.1, t.2)) := rfl
  rw [hstep, hfind]
  rfl

/-- An open parenthesis skips the bracket group and feeds the second
`\s?`. -/
theorem ciaoWs2_open_paren (h v : List Char) (hp : ')' ∉ v) :
    ciaoWs2 ('(' :: (h ++ ')' :: ' ' :: v)) = Option.some (Option.some h, v) := by
  have hstep : ciaoWs2 ('(' :: (h ++ ')' :: ' ' :: v)) =
      ciaoParen ('(' :: (h ++ ')' :: ' ' :: v)) := rfl
  rw [hstep, ciaoParen_closed h v hp]

/-- An open parenthesis skips the bracket group entirely. -/
theorem ciaoBracket_open_paren (h v : List Char) (hp : ')' ∉ v) :
    ciaoBracket ('(' :: (h ++ ')' :: ' ' :: v)) =
      Option.some (Option.none, Option.some h, v) := by
  have hstep : ciaoBracket ('(' :: (h ++ ')' :: ' ' :: v)) =
      (ciaoWs2 ('(' :: (h ++ ')' :: ' ' :: v))).map fun t => (Option.none, t.1, t.2) := rfl
  rw [hstep, ciaoWs2_open_paren h v hp]
  rfl

/-- Tail of a line with neither soft nor hard scale: only the hard value
follows the type letter. -/
theorem ciaoWs1_tailA (v : List Char) (hh : headOkCiao v = true) :
    ciaoWs1 (' ' :: v) = Option.some (Option.none, Option.none, v) := by
  have hstep : ciaoWs1 (' ' :: v) =
      (ciaoBracket v <|> ciaoBracket (' ' :: v)) := rfl
  have hstep2 : ciaoBracket (' ' :: v) =
      (ciaoWs2 (' ' :: v)).map fun t => (Option.none, t.1, t.2) := rfl
  rw [hstep, ciaoBracket_headOk_none v hh, hstep2, ciaoWs2_space v hh]
  rfl

/-- Tail of a line with a hard scale but no soft scale. -/
theorem ciaoWs1_tailB (h v : List Char) (hp : ')' ∉ v) :
    ciaoWs1 (' ' :: '(' :: (h ++ ')' :: ' ' :: v)) =
      Option.some (Option.none, Option.some h, v) := by
  have hstep : ciaoWs1 (' ' :: '(' :: (h ++ ')' :: ' ' :: v)) =
      (ciaoBracket ('(' :: (h ++ ')' :: ' ' :: v)) <|>
        ciaoBracket (' ' :: '(' :: (h ++ ')' :: ' ' :: v))) := rfl
  rw [hstep, ciaoBracket_open_paren h v hp]
  rfl

/-- Tail of a line with a soft scale but no hard scale. -/
theorem ciaoWs1_tailC (s v : List Char) (hb : ']' ∉ v) (hh : headOkCiao v = true) :
    ciaoWs1 (' ' :: '[' :: (s ++ ']' :: ' ' :: v)) =
      Option.some (Option.some s, Option.none, v) := by
  have hnb : ']' ∉ (' ' :: v) := by
    intro hm
    rcases List.mem_cons.mp hm with h1 | h1
    · exact absurd h1 (by decide)
    · exact hb h1
  have hstep : ciaoWs1 (' ' :: '[' :: (s ++ ']' :: ' ' :: v)) =
      (ciaoBracket ('[' :: (s ++ ']' :: ' ' :: v)) <|>
        ciaoBracket (' ' :: '[' :: (s ++ ']' :: ' ' :: v))) := rfl
  rw [hstep, ciaoBracket_closed s (' ' :: v) (Option.none, v) hnb (ciaoWs2_space v hh)]
  rfl

/-- Tail of a line with both a soft and a hard scale. -/
theorem ciaoWs1_tailD (s h v : List Char) (hbh : ']' ∉ h) (hbv : ']' ∉ v)
    (hp : ')' ∉ v) :
    ciaoWs1 (' ' :: '[' :: (s ++ ']' :: ' ' :: '(' :: (h ++ ')' :: ' ' :: v))) =
      Option.some (Option.some s, Option.some h, v) := by
  have hnb : ']' ∉ (' ' :: '(' :: (h ++ ')' :: ' ' :: v)) := by
    intro hm
    rcases List.mem_cons.mp hm with h1 | h1
    · exact absurd h1 (by decide)
    rcases List.mem_cons.mp h1 with h2 | h2
    · exact absurd h2 (by decide)
    rcases List.mem_append.mp h2 with h3 | h3
    · exact hbh h3
    rcases List.mem_cons.mp h3 with h4 | h4
    · exact absurd h4 (by decide)
    rcases List.mem_cons.mp h4 with h5 | h5
    · exact absurd h5 (by decide)
    · exact hbv h5
  have hstep : ciaoWs1 (' ' :: '[' :: (s ++ ']' :: ' ' :: '(' :: (h ++ ')' :: ' ' :: v))) =
      (ciaoBracket ('[' :: (s ++ ']' :: ' ' :: '(' :: (h ++ ')' :: ' ' :: v))) <|>
        ciaoBracket (' ' :: '[' :: (s ++ ']' :: ' ' :: '(' :: (h ++ ')' :: ' ' :: v)))) := rfl
  rw [hstep, ciaoBracket_closed s (' ' :: '(' :: (h ++ ')' :: ' ' :: v))
    (Option.some h, v) hnb (ciaoWs2_space_paren h v hp)]
  rfl

/-- The type letter is consumed when it is a word character. -/
theorem ciaoType_word (t : Char) (rest : List Char) (hw : isPyWord t = true) :
    ciaoType (t :: rest) = (ciaoWs1 rest).map fun u => (t, u) := by
  have hstep : ciaoType (t :: rest) =
      (if isPyWord t then (ciaoWs1 rest).map (fun u => (t, u)) else Option.none) := rfl
  rw [hstep, hw]
  rfl

/-- The greedy `(?P<param>.*): ` split takes the serialized name when no
later colon-space pair exists. -/
theorem ciaoNameSplit_eq (name tail : List Char)
    (r : Char × Option (List Char) × Option (List Char) × List Char)
    (ht : ciaoType tail = Option.some r)
    (hno : listHasInfix [':', ' '] tail = false) :
    ciaoNameSplit (name ++ ':' :: ' ' :: tail) = Option.some (name, r) := by
  rw [ciaoNameSplit]
  refine findSome_splitsDesc _ name (':' :: ' ' :: tail) _ ?_ ?_
  · intro x k hk1 hk2
    match k, hk1 with
    | 1, _ => rfl
    | j + 2, _ =>
      show (match tail.drop j with
        | ':' :: ' ' :: r2 => (ciaoType r2).map fun t => (x, t)
        | _ => Option.none) = Option.none
      have hsw := startsWith_false_of_drop [':', ' '] (by decide) tail hno j
      split
      · rename_i r2 heq
        rw [heq] at hsw
        simp [listStartsWith] at hsw
      · rfl
  · show (ciaoType tail).map (fun t => (name, t)) = Option.some (name, r)
    rw [ht]
    rfl

/-- The name split finds nothing when the input holds no colon-space
pair at all. -/
theorem ciaoNameSplit_none (cs : List Char)
    (hno : listHasInfix [':', ' '] cs = false) :
    ciaoNameSplit cs = Option.none := by
  rw [ciaoNameSplit]
  refine List.findSome?_eq_none_iff.mpr ?_
  intro pr hpr
  rw [splitsDesc, List.mem_reverse, splitsAsc_eq_map_range] at hpr
  rcases List.mem_map.mp hpr with ⟨i, _, hi⟩
  have hsw := startsWith_false_of_drop [':', ' '] (by decide) cs hno i
  rw [← hi]
  show (match cs.drop i with
    | ':' :: ' ' :: r2 => (ciaoType r2).map fun t => ((cs.take i : List Char), t)
    | _ => Option.none) = Option.none
  split
  · rename_i r2 heq
    rw [heq] at hsw
    simp [listStartsWith] at hsw
  · rfl

/-- No colon-space pair survives prefixing a space. -/
theorem listHasInfix_colon_space_cons_space (l : List Char)
    (h : listHasInfix [':', ' '] l = false) :
    listHasInfix [':', ' '] (' ' :: l) = false := by
  rw [listHasInfix, h]
  rfl

/-- The group alternative with a present digit and a well-behaved rest. -/
theorem ciaoGroup_digit (d : Char) (cs : List Char)
    (res : List Char × Char × Option (List Char) × Option (List Char) × List Char)
    (hd : isPyDigit d = true)
    (hns : ciaoNameSplit cs = Option.some res) :
    ciaoGroup (d :: ':' :: cs) = Option.some (Option.some [d], res) := by
  rw [ciaoGroup, if_pos hd, hns]
  rfl

/-- The group alternatives all fall through to a bare name when the
serialized line carries no group prefix. -/
theorem ciaoGroup_no_group (name : List Char) (t : Char) (rest : List Char)
    (r : Char × Option (List Char) × Option (List Char) × List Char)
    (hstart : nameStartOk name = true)
    (ht : ciaoType (t :: rest) = Option.some r)
    (hno : listHasInfix [':', ' '] (t :: rest) = false) :
    ciaoGroup (name ++ ':' :: ' ' :: t :: rest) =
      Option.some (Option.none, name, r) := by
  have hno2 := listHasInfix_colon_space_cons_space _ hno
  have hns2 : ciaoNameSplit (' ' :: t :: rest) = Option.none :=
    ciaoNameSplit_none _ hno2
  have hm := ciaoNameSplit_eq name (t :: rest) r ht hno
  match name, hstart with
  | [], _ =>
    simp only [List.nil_append] at hm
    have hstep : ciaoGroup (':' :: ' ' :: t :: rest) =
        ((ciaoNameSplit (' ' :: t :: rest)).map
            (fun u => (Option.some ([] : List Char), u)) <|>
          (ciaoNameSplit (':' :: ' ' :: t :: rest)).map
            fun u => (Option.none, u)) := rfl
    show ciaoGroup (':' :: ' ' :: t :: rest) = Option.some (Option.none, [], r)
    rw [hstep, hns2, hm]
    rfl
  | [c], hstart =>
    have hc : ¬ c = ':' := by
      simpa [nameStartOk] using hstart
    simp only [List.cons_append, List.nil_append] at hm
    have hstep : ciaoGroup (c :: ':' :: ' ' :: t :: rest) =
        ((if isPyDigit c then
            (ciaoNameSplit (' ' :: t :: rest)).map fun u => (Option.some [c], u)
          else Option.none) <|>
         ((match (c :: ':' :: ' ' :: t :: rest : List Char) with
           | ':' :: rr => (ciaoNameSplit rr).map
               fun u => (Option.some ([] : List Char), u)
           | _ => Option.none) <|>
          (ciaoNameSplit (c :: ':' :: ' ' :: t :: rest)).map
            fun u => (Option.none, u))) := rfl
    show ciaoGroup (c :: ':' :: ' ' :: t :: rest) =
      Option.some (Option.none, [c], r)
    rw [hstep, hns2, hm]
    simp only [Option.map_none', ite_self]
    split
    · rename_i rr heq
      injection heq with h1 _
      exact absurd h1 hc
    · rfl
  | c1 :: c2 :: name2, hstart =>
    simp only [nameStartOk, Bool.and_eq_true, Bool.or_eq_true, bne_iff_ne,
      ne_eq, Bool.not_eq_true'] at hstart
    have hc1 : ¬ c1 = ':' := hstart.1
    simp only [List.cons_append] at hm ⊢
    by_cases hc2 : c2 = ':'
    · subst hc2
      have hd1 : isPyDigit c1 = false := by
        rcases hstart.2 with h2 | h2
        · exact absurd rfl h2
        · exact h2
      have hstep : ciaoGroup (c1 :: ':' :: (name2 ++ ':' :: ' ' :: t :: rest)) =
          ((if isPyDigit c1 then
              (ciaoNameSplit (name2 ++ ':' :: ' ' :: t :: rest)).map
                fun u => (Option.some [c1], u)
            else Option.none) <|>
           ((match (c1 :: ':' :: (name2 ++ ':' :: ' ' :: t :: rest) : List Char) with
             | ':' :: rr => (ciaoNameSplit rr).map
                 fun u => (Option.some ([] : List Char), u)
             | _ => Option.none) <|>
            (ciaoNameSplit (c1 :: ':' :: (name2 ++ ':' :: ' ' :: t :: rest))).map
              fun u => (Option.none, u))) := rfl
      rw [hstep, hd1, hm]
      simp only [Bool.false_eq_true, if_false]
      split
      · rename_i rr heq
        injection heq with h1 _
        exact absurd h1 hc1
      · rfl
    · have hstep : ciaoGroup (c1 :: c2 :: (name2 ++ ':' :: ' ' :: t :: rest)) =
          (((match (c1 :: c2 :: (name2 ++ ':' :: ' ' :: t :: rest) : List Char) with
             | d :: ':' :: rr =>
               if isPyDigit d then
                 (ciaoNameSplit rr).map fun u => (Option.some [d], u)
               else Option.none
             | _ => Option.none) :
              Option (Option (List Char) × List Char × Char ×
                Option (List Char) × Option (List Char) × List Char)) <|>
           ((match (c1 :: c2 :: (name2 ++ ':' :: ' ' :: t :: rest) : List Char) with
             | ':' :: rr => (ciaoNameSplit rr).map
                 fun u => (Option.some ([] : List Char), u)
             | _ => Option.none) <|>
            (ciaoNameSplit (c1 :: c2 :: (name2 ++ ':' :: ' ' :: t :: rest))).map
              fun u => (Option.none, u))) := rfl
      rw [hstep, hm]
      split
      · rename_i d rr heq
        injection heq with _ h2
        injection h2 with h2 _
        exact absurd h2 hc2
      · split
        · rename_i rr heq
          injection heq with h1 _
          exact absurd h1 hc1
        · rfl

/-- The leading `\\?@?` of the pattern consumes the serialized prefix. -/
theorem ciaoStart_full (cs : List Char)
    (res : Option (List Char) × List Char × Char ×
      Option (List Char) × Option (List Char) × List Char)
    (h : ciaoGroup cs = Option.some res) :
    ciaoStart ('\\' :: '@' :: cs) = Option.some res := by
  have h1 : ciaoStart ('\\' :: '@' :: cs) =
      (ciaoAt ('@' :: cs) <|> ciaoAt ('\\' :: '@' :: cs)) := rfl
  have h2 : ciaoAt ('@' :: cs) = (ciaoGroup cs <|> ciaoGroup ('@' :: cs)) := rfl
  rw [h1, h2, h]
  rfl

/-- String concatenation concatenates the character lists. -/
theorem toList_append (a b : String) : (a ++ b).toList = a.toList ++ b.toList := rfl

/-- A head other than a colon cannot start a colon-space pair. -/
theorem hasInfix_pair_cons_ne (c : Char) (l : List Char) (hc : ¬ ':' = c) :
    listHasInfix [':', ' '] (c :: l) = listHasInfix [':', ' '] l := by
  rw [listHasInfix]
  have h1 : listStartsWith [':', ' '] (c :: l) = false := by
    simp [listStartsWith, hc]
  rw [h1, Bool.false_or]

/-- Colon-space freedom is preserved by appending, provided the right part
does not begin with a space. -/
theorem hasInfix_pair_append (a b : List Char)
    (ha : listHasInfix [':', ' '] a = false)
    (hb : listHasInfix [':', ' '] b = false)
    (hd : b.head? ≠ Option.some ' ') :
    listHasInfix [':', ' '] (a ++ b) = false := by
  induction a with
  | nil => simpa using hb
  | cons c a ih =>
    rw [listHasInfix, Bool.or_eq_false_iff] at ha
    rw [List.cons_append, listHasInfix, Bool.or_eq_false_iff]
    refine ⟨?_, ih ha.2⟩
    by_cases hc : ':' = c
    · subst hc
      have ha2 : listStartsWith [' '] a = false := by
        have := ha.1
        simpa [listStartsWith] using this
      match a with
      | [] =>
        match b, hd with
        | [], _ => rfl
        | d :: b2, hd =>
          have hds : ¬ ' ' = d := fun he => hd (by rw [← he]; rfl)
          simp [listStartsWith, hds]
      | e :: a2 =>
        have hes : ¬ ' ' = e := by
          intro he
          rw [← he] at ha2
          simp [listStartsWith] at ha2
        simp [listStartsWith, hes]
    · simp [listStartsWith, hc]

/-- The rendered group prefix of a one-digit group number. -/
theorem groupString_digit (n : ℤ) (h1 : 1 ≤ n) (h9 : n ≤ 9) :
    (groupString (Option.some n)).toList = [Char.ofNat (48 + n.toNat), ':'] ∧
    isPyDigit (Char.ofNat (48 + n.toNat)) = true ∧
    (digitsVal [Char.ofNat (48 + n.toNat)] : ℤ) = n := by
  interval_cases n <;> exact ⟨rfl, rfl, rfl⟩

/-- `RE_CIAO_PARAM.match` on a line of the serialized shape produces
exactly the serialized captures: no digit group, the name, the type
letter, and whatever the tail analysis yields. -/
theorem matchCiao_serialized (L : String) (g : Option ℤ) (name : String) (t : Char)
    (tl : List Char) (sc hc : Option (List Char)) (v : List Char)
    (hsL : L.toList =
      '\\' :: '@' :: ((groupString g).toList ++
        (name.toList ++ ':' :: ' ' :: t :: tl)))
    (hg : ∀ n, g = Option.some n → 1 ≤ n ∧ n ≤ 9)
    (hname : g = Option.none → nameStartOk name.toList = true)
    (hword : isPyWord t = true)
    (hws1 : ciaoWs1 tl = Option.some (sc, hc, v))
    (hno : listHasInfix [':', ' '] (t :: tl) = false) :
    matchCiao L = Option.some
      { groupCap := g.map fun n => [Char.ofNat (48 + n.toNat)],
        param := name.toList, ptype := t, softscale := sc, hardscale := hc,
        hardval := v } := by
  have ht : ciaoType (t :: tl) = Option.some (t, sc, hc, v) := by
    rw [ciaoType_word t tl hword, hws1]
    rfl
  rw [matchCiao, hsL]
  cases g with
  | none =>
    have hgl : (groupString Option.none).toList = [] := rfl
    rw [hgl, List.nil_append]
    rw [ciaoStart_full _ _
      (ciaoGroup_no_group name.toList t tl (t, sc, hc, v) (hname rfl) ht hno)]
    rfl
  | some n =>
    obtain ⟨hgl, hdig, _⟩ := groupString_digit n (hg n rfl).1 (hg n rfl).2
    rw [hgl, List.cons_append, List.cons_append, List.nil_append]
    rw [ciaoStart_full _ _
      (ciaoGroup_digit (Char.ofNat (48 + n.toNat)) _ _ hdig
        (ciaoNameSplit_eq name.toList (t :: tl) (t, sc, hc, v) ht hno))]
    rfl

/-- Assembling `from_string` on a match with Value captures. -/
theorem fromString_endgame_value (L : String) (g : Option ℤ) (name : String)
    (ss hs hv : PyValue) (sc hc : Option (List Char))
    (hg : ∀ n, g = Option.some n → 1 ≤ n ∧ n ≤ 9)
    (hmc : matchCiao L = Option.some
      { groupCap := g.map fun n => [Char.ofNat (48 + n.toNat)],
        param := name.toList, ptype := 'V', softscale := sc, hardscale := hc,
        hardval := hv.pyStr.toList })
    (hss : parseParameterValue (sc.map String.mk) = Except.ok (ss, []))
    (hhs : match hc with
      | Option.some h => h ≠ [] ∧
          parseParameterValue (Option.some (String.mk h)) = Except.ok (hs, [])
      | Option.none => hs = PyValue.none)
    (hvne : hv.pyStr.toList ≠ [])
    (hhv : parseParameterValue (Option.some hv.pyStr) = Except.ok (hv, [])) :
    fromString L = .ok (.valueParameter g name ss hs hv) := by
  have hvE : (hv.pyStr.toList).isEmpty = false := by
    match hv.pyStr.toList, hvne with
    | c :: r, _ => rfl
  have hmkv : (String.mk hv.pyStr.toList) = hv.pyStr := rfl
  rw [fromString, hmc]
  cases hc with
  | none =>
    rw [hhs]
    simp only [hss, hvE, Bool.false_eq_true, if_false, Except.map, bind,
      Except.bind, pure, Except.pure]
    rw [hmkv, hhv]
    cases g with
    | none => rfl
    | some n =>
      obtain ⟨_, _, hval⟩ := groupString_digit n (hg n rfl).1 (hg n rfl).2
      dsimp only [Option.map_some']
      rw [hval]
      rfl
  | some h =>
    obtain ⟨hne, hpe⟩ := hhs
    have hE : h.isEmpty = false := by
      match h, hne with
      | c :: r, _ => rfl
    simp only [hss, hvE, hE, Bool.false_eq_true, if_false, Except.map, bind,
      Except.bind, pure, Except.pure]
    rw [hmkv, hhv, hpe]
    cases g with
    | none => rfl
    | some n =>
      obtain ⟨_, _, hval⟩ := groupString_digit n (hg n rfl).1 (hg n rfl).2
      dsimp only [Option.map_some']
      rw [hval]
      rfl

/-- An empty rendered value cannot satisfy a truthy parse equation. -/
theorem pyStr_ne_nil_of_truthy (x : PyValue) (ht : x.truthy = true)
    (hp : parseParameterValue (Option.some x.pyStr) = Except.ok (x, [])) :
    x.pyStr.toList ≠ [] := by
  intro he
  have hx : x.pyStr = "" := by
    rw [show ("" : String) = String.mk [] from rfl, ← he]
    rfl
  rw [hx] at hp
  have hpe : parseParameterValue (Option.some "") =
      Except.ok (PyValue.str "", []) := rfl
  rw [hpe] at hp
  injection hp with h1
  injection h1 with h2 _
  rw [← h2] at ht
  exact absurd ht (by decide)

/-- Round trip of the Value variant under the grammar-side conditions. -/
theorem fromString_value_roundtrip (g : Option ℤ) (name : String)
    (ss hs hv : PyValue)
    (hg : ∀ n, g = Option.some n → 1 ≤ n ∧ n ≤ 9)
    (hname : g = Option.none → nameStartOk name.toList = true)
    (hssP : if ss.truthy then
        parseParameterValue (Option.some ss.pyStr) = Except.ok (ss, [])
      else ss = PyValue.none)
    (hhsP : if hs.truthy then
        parseParameterValue (Option.some hs.pyStr) = Except.ok (hs, [])
      else hs = PyValue.none)
    (hhvP : parseParameterValue (Option.some hv.pyStr) = Except.ok (hv, []))
    (hcsS : listHasInfix [':', ' '] ss.pyStr.toList = false)
    (hcsH : listHasInfix [':', ' '] hs.pyStr.toList = false)
    (hcsV : listHasInfix [':', ' '] hv.pyStr.toList = false)
    (hbH : ']' ∉ hs.pyStr.toList)
    (hbV : ']' ∉ hv.pyStr.toList)
    (hpV : ')' ∉ hv.pyStr.toList)
    (hhd : headOkCiao hv.pyStr.toList = true) :
    fromString (CIAOParameter.ciao_string (.valueParameter g name ss hs hv)) =
      .ok (.valueParameter g name ss hs hv) := by
  have hvne : hv.pyStr.toList ≠ [] := by
    intro he
    rw [he] at hhd
    exact absurd hhd (by decide)
  have hivt : listHasInfix [':', ' '] (' ' :: hv.pyStr.toList) = false := by
    rw [hasInfix_pair_cons_ne _ _ (by decide)]
    exact hcsV
  by_cases hst : ss.truthy = true <;> by_cases hht : hs.truthy = true
  · rw [if_pos hst] at hssP
    rw [if_pos hht] at hhsP
    have hhne := pyStr_ne_nil_of_truthy hs hht hhsP
    have hsL : (CIAOParameter.ciao_string (.valueParameter g name ss hs hv)).toList =
        '\\' :: '@' :: ((groupString g).toList ++ (name.toList ++ ':' :: ' ' :: 'V' ::
          (' ' :: '[' :: (ss.pyStr.toList ++ ']' :: ' ' :: '(' ::
            (hs.pyStr.toList ++ ')' :: ' ' :: hv.pyStr.toList))))) := by
      rw [CIAOParameter.ciao_string, if_pos hst, if_pos hht]
      simp only [toList_append, List.append_assoc]
      rfl
    have hiv : listHasInfix [':', ' '] (')' :: ' ' :: hv.pyStr.toList) = false := by
      rw [hasInfix_pair_cons_ne _ _ (by decide)]
      exact hivt
    have hih := hasInfix_pair_append _ _ hcsH hiv (by simp)
    have hibr : listHasInfix [':', ' '] (']' :: ' ' :: '(' ::
        (hs.pyStr.toList ++ ')' :: ' ' :: hv.pyStr.toList)) = false := by
      rw [hasInfix_pair_cons_ne _ _ (by decide), hasInfix_pair_cons_ne _ _ (by decide),
        hasInfix_pair_cons_ne _ _ (by decide)]
      exact hih
    have his := hasInfix_pair_append _ _ hcsS hibr (by simp)
    have hno : listHasInfix [':', ' '] ('V' :: ' ' :: '[' ::
        (ss.pyStr.toList ++ ']' :: ' ' :: '(' ::
          (hs.pyStr.toList ++ ')' :: ' ' :: hv.pyStr.toList))) = false := by
      rw [hasInfix_pair_cons_ne _ _ (by decide), hasInfix_pair_cons_ne _ _ (by decide),
        hasInfix_pair_cons_ne _ _ (by decide)]
      exact his
    have hmc := matchCiao_serialized _ g name 'V' _ (Option.some ss.pyStr.toList)
      (Option.some hs.pyStr.toList) hv.pyStr.toList hsL hg hname (by decide)
      (ciaoWs1_tailD _ _ _ hbH hbV hpV) hno
    exact fromString_endgame_value _ g name ss hs hv _ _ hg hmc hssP
      ⟨hhne, hhsP⟩ hvne hhvP
  · rw [if_pos hst] at hssP
    rw [if_neg hht] at hhsP
    subst hhsP
    have hsL : (CIAOParameter.ciao_string (.valueParameter g name ss PyValue.none hv)).toList =
        '\\' :: '@' :: ((groupString g).toList ++ (name.toList ++ ':' :: ' ' :: 'V' ::
          (' ' :: '[' :: (ss.pyStr.toList ++ ']' :: ' ' :: hv.pyStr.toList)))) := by
      rw [CIAOParameter.ciao_string, if_pos hst, if_neg hht]
      simp only [toList_append, List.append_assoc]
      rfl
    have hibr : listHasInfix [':', ' '] (']' :: ' ' :: hv.pyStr.toList) = false := by
      rw [hasInfix_pair_cons_ne _ _ (by decide)]
      exact hivt
    have his := hasInfix_pair_append _ _ hcsS hibr (by simp)
    have hno : listHasInfix [':', ' '] ('V' :: ' ' :: '[' ::
        (ss.pyStr.toList ++ ']' :: ' ' :: hv.pyStr.toList)) = false := by
      rw [hasInfix_pair_cons_ne _ _ (by decide), hasInfix_pair_cons_ne _ _ (by decide),
        hasInfix_pair_cons_ne _ _ (by decide)]
      exact his
    have hmc := matchCiao_serialized _ g name 'V' _ (Option.some ss.pyStr.toList)
      Option.none hv.pyStr.toList hsL hg hname (by decide)
      (ciaoWs1_tailC _ _ hbV hhd) hno
    exact fromString_endgame_value _ g name ss PyValue.none hv _ _ hg hmc hssP
      rfl hvne hhvP
  · rw [if_neg hst] at hssP
    rw [if_pos hht] at hhsP
    subst hssP
    have hhne := pyStr_ne_nil_of_truthy hs hht hhsP
    have hsL : (CIAOParameter.ciao_string (.valueParameter g name PyValue.none hs hv)).toList =
        '\\' :: '@' :: ((groupString g).toList ++ (name.toList ++ ':' :: ' ' :: 'V' ::
          (' ' :: '(' :: (hs.pyStr.toList ++ ')' :: ' ' :: hv.pyStr.toList)))) := by
      rw [CIAOParameter.ciao_string, if_neg hst, if_pos hht]
      simp only [toList_append, List.append_assoc]
      rfl
    have hiv : listHasInfix [':', ' '] (')' :: ' ' :: hv.pyStr.toList) = false := by
      rw [hasInfix_pair_cons_ne _ _ (by decide)]
      exact hivt
    have hih := hasInfix_pair_append _ _ hcsH hiv (by simp)
    have hno : listHasInfix [':', ' '] ('V' :: ' ' :: '(' ::
        (hs.pyStr.toList ++ ')' :: ' ' :: hv.pyStr.toList)) = false := by
      rw [hasInfix_pair_cons_ne _ _ (by decide), hasInfix_pair_cons_ne _ _ (by decide),
        hasInfix_pair_cons_ne _ _ (by decide)]
      exact hih
    have hmc := matchCiao_serialized _ g name 'V' _ Option.none
      (Option.some hs.pyStr.toList) hv.pyStr.toList hsL hg hname (by decide)
      (ciaoWs1_tailB _ _ hpV) hno
    exact fromString_endgame_value _ g name PyValue.none hs hv _ _ hg hmc rfl
      ⟨hhne, hhsP⟩ hvne hhvP
  · rw [if_neg hst] at hssP
    rw [if_neg hht] at hhsP
    subst hssP
    subst hhsP
    have hsL : (CIAOParameter.ciao_string
        (.valueParameter g name PyValue.none PyValue.none hv)).toList =
        '\\' :: '@' :: ((groupString g).toList ++ (name.toList ++ ':' :: ' ' :: 'V' ::
          (' ' :: hv.pyStr.toList))) := by
      rw [CIAOParameter.ciao_string, if_neg hst, if_neg hht]
      simp only [toList_append, List.append_assoc]
      rfl
    have hno : listHasInfix [':', ' '] ('V' :: ' ' :: hv.pyStr.toList) = false := by
      rw [hasInfix_pair_cons_ne _ _ (by decide)]
      exact hivt
    have hmc := matchCiao_serialized _ g name 'V' _ Option.none Option.none
      hv.pyStr.toList hsL hg hname (by decide) (ciaoWs1_tailA _ hhd) hno
    exact fromString_endgame_value _ g name PyValue.none PyValue.none hv _ _ hg hmc
      rfl rfl hvne hhvP

/-- A leading space never clashes with the group alternatives. -/
theorem nameStartOk_space (l : List Char) : nameStartOk (' ' :: l) = true := by
  match l with
  | [] => rfl
  | c :: r =>
    simp only [nameStartOk, show ((' ' : Char) != ':') = true from rfl,
      show (!isPyDigit ' ') = true from rfl, Bool.or_true, Bool.true_and]

/-- Assembling `from_string` on a match with Scale captures. -/
theorem fromString_endgame_scale (L : String) (g : Option ℤ) (name : String)
    (ss hv : PyValue)
    (hg : ∀ n, g = Option.some n → 1 ≤ n ∧ n ≤ 9)
    (hmc : matchCiao L = Option.some
      { groupCap := g.map fun n => [Char.ofNat (48 + n.toNat)],
        param := name.toList, ptype := 'C',
        softscale := Option.some ss.pyStr.toList, hardscale := Option.none,
        hardval := hv.pyStr.toList })
    (hssP : parseParameterValue (Option.some ss.pyStr) = Except.ok (ss, []))
    (hvne : hv.pyStr.toList ≠ [])
    (hhvP : parseParameterValue (Option.some hv.pyStr) = Except.ok (hv, [])) :
    fromString L = .ok (.scaleParameter g name ss hv) := by
  have hvE : (hv.pyStr.toList).isEmpty = false := by
    match hv.pyStr.toList, hvne with
    | c :: r, _ => rfl
  rw [fromString, hmc]
  simp only [show Option.map String.mk (Option.some ss.pyStr.toList) =
      Option.some ss.pyStr from rfl, hssP, hvE, Bool.false_eq_true, if_false,
    Except.map, bind, Except.bind, pure, Except.pure]
  rw [show (String.mk hv.pyStr.toList) = hv.pyStr from rfl, hhvP]
  cases g with
  | none => rfl
  | some n =>
    obtain ⟨_, _, hval⟩ := groupString_digit n (hg n rfl).1 (hg n rfl).2
    dsimp only [Option.map_some']
    rw [hval]
    rfl

/-- Assembling `from_string` on a match with Select captures. -/
theorem fromString_endgame_select (L : String) (g : Option ℤ) (name : String)
    (intd ed : PyValue)
    (hg : ∀ n, g = Option.some n → 1 ≤ n ∧ n ≤ 9)
    (hmc : matchCiao L = Option.some
      { groupCap := g.map fun n => [Char.ofNat (48 + n.toNat)],
        param := name.toList, ptype := 'S',
        softscale := Option.some intd.pyStr.toList, hardscale := Option.none,
        hardval := '"' :: ed.pyStr.toList ++ ['"'] })
    (hip : parseParameterValue (Option.some intd.pyStr) = Except.ok (intd, []))
    (hep : parseParameterValue (Option.some ("\"" ++ ed.pyStr ++ "\"")) =
      Except.ok (ed, [])) :
    fromString L = .ok (.selectParameter g name intd ed) := by
  rw [fromString, hmc]
  simp only [show Option.map String.mk (Option.some intd.pyStr.toList) =
      Option.some intd.pyStr from rfl, hip,
    show (('"' :: ed.pyStr.toList ++ ['"']).isEmpty) = false from rfl,
    Bool.false_eq_true, if_false, Except.map, bind, Except.bind, pure, Except.pure]
  rw [show (String.mk ('"' :: ed.pyStr.toList ++ ['"'])) =
    ("\"" ++ ed.pyStr ++ "\"") from rfl, hep]
  cases g with
  | none => rfl
  | some n =>
    obtain ⟨_, _, hval⟩ := groupString_digit n (hg n rfl).1 (hg n rfl).2
    dsimp only [Option.map_some']
    rw [hval]
    rfl

/-- Round trip of the Scale variant: the reparsed name gains the stray
leading space that `ScaleParameter.ciao_string` prints. -/
theorem fromString_scale_roundtrip (g : Option ℤ) (name : String)
    (ss hv : PyValue)
    (hg : ∀ n, g = Option.some n → 1 ≤ n ∧ n ≤ 9)
    (hssP : parseParameterValue (Option.some ss.pyStr) = Except.ok (ss, []))
    (hhvP : parseParameterValue (Option.some hv.pyStr) = Except.ok (hv, []))
    (hcsS : listHasInfix [':', ' '] ss.pyStr.toList = false)
    (hcsV : listHasInfix [':', ' '] hv.pyStr.toList = false)
    (hbV : ']' ∉ hv.pyStr.toList)
    (hhd : headOkCiao hv.pyStr.toList = true) :
    fromString (CIAOParameter.ciao_string (.scaleParameter g name ss hv)) =
      .ok (.scaleParameter g (" " ++ name) ss hv) := by
  have hvne : hv.pyStr.toList ≠ [] := by
    intro he
    rw [he] at hhd
    exact absurd hhd (by decide)
  have hsL : (CIAOParameter.ciao_string (.scaleParameter g name ss hv)).toList =
      '\\' :: '@' :: ((groupString g).toList ++ ((" " ++ name).toList ++
        ':' :: ' ' :: 'C' :: (' ' :: '[' ::
          (ss.pyStr.toList ++ ']' :: ' ' :: hv.pyStr.toList)))) := by
    rw [CIAOParameter.ciao_string]
    simp only [toList_append, List.append_assoc]
    rfl
  have hibr : listHasInfix [':', ' '] (']' :: ' ' :: hv.pyStr.toList) = false := by
    rw [hasInfix_pair_cons_ne _ _ (by decide), hasInfix_pair_cons_ne _ _ (by decide)]
    exact hcsV
  have his := hasInfix_pair_append _ _ hcsS hibr (by simp)
  have hno : listHasInfix [':', ' '] ('C' :: ' ' :: '[' ::
      (ss.pyStr.toList ++ ']' :: ' ' :: hv.pyStr.toList)) = false := by
    rw [hasInfix_pair_cons_ne _ _ (by decide), hasInfix_pair_cons_ne _ _ (by decide),
      hasInfix_pair_cons_ne _ _ (by decide)]
    exact his
  have hmc := matchCiao_serialized _ g (" " ++ name) 'C' _
    (Option.some ss.pyStr.toList) Option.none hv.pyStr.toList hsL hg
    (fun _ => by
      rw [show (" " ++ name).toList = ' ' :: name.toList from rfl]
      exact nameStartOk_space name.toList)
    (by decide) (ciaoWs1_tailC _ _ hbV hhd) hno
  exact fromString_endgame_scale _ g (" " ++ name) ss hv hg
    (by
      rw [show (" " ++ name).toList = ' ' :: name.toList from rfl] at hmc
      exact hmc)
    hssP hvne hhvP

/-- Round trip of the Select variant under the grammar-side conditions. -/
theorem fromString_select_roundtrip (g : Option ℤ) (name : String)
    (intd ed : PyValue)
    (hg : ∀ n, g = Option.some n → 1 ≤ n ∧ n ≤ 9)
    (hname : g = Option.none → nameStartOk name.toList = true)
    (hip : parseParameterValue (Option.some intd.pyStr) = Except.ok (intd, []))
    (hep : parseParameterValue (Option.some ("\"" ++ ed.pyStr ++ "\"")) =
      Except.ok (ed, []))
    (hcsI : listHasInfix [':', ' '] intd.pyStr.toList = false)
    (hcsE : listHasInfix [':', ' '] ed.pyStr.toList = false)
    (hbE : ']' ∉ ed.pyStr.toList) :
    fromString (CIAOParameter.ciao_string (.selectParameter g name intd ed)) =
      .ok (.selectParameter g name intd ed) := by
  have hbQ : ']' ∉ ('"' :: ed.pyStr.toList ++ ['"']) := by
    intro hm
    rcases List.mem_cons.mp hm with h1 | h1
    · exact absurd h1 (by decide)
    rcases List.mem_append.mp h1 with h2 | h2
    · exact hbE h2
    · rcases List.mem_cons.mp h2 with h3 | h3
      · exact absurd h3 (by decide)
      · cases h3
  have hsL : (CIAOParameter.ciao_string (.selectParameter g name intd ed)).toList =
      '\\' :: '@' :: ((groupString g).toList ++ (name.toList ++
        ':' :: ' ' :: 'S' :: (' ' :: '[' ::
          (intd.pyStr.toList ++ ']' :: ' ' :: ('"' :: ed.pyStr.toList ++ ['"']))))) := by
    rw [CIAOParameter.ciao_string]
    simp only [toList_append, List.append_assoc]
    rfl
  have hiq : listHasInfix [':', ' '] ('"' :: ed.pyStr.toList ++ ['"']) = false := by
    rw [show ('"' :: ed.pyStr.toList ++ ['"']) = '"' :: (ed.pyStr.toList ++ ['"'])
      from rfl]
    rw [hasInfix_pair_cons_ne _ _ (by decide)]
    exact hasInfix_pair_append _ _ hcsE (by decide) (by simp)
  have hibr : listHasInfix [':', ' ']
      (']' :: ' ' :: ('"' :: ed.pyStr.toList ++ ['"'])) = false := by
    rw [hasInfix_pair_cons_ne _ _ (by decide), hasInfix_pair_cons_ne _ _ (by decide)]
    exact hiq
  have his := hasInfix_pair_append _ _ hcsI hibr (by simp)
  have hno : listHasInfix [':', ' '] ('S' :: ' ' :: '[' ::
      (intd.pyStr.toList ++ ']' :: ' ' :: ('"' :: ed.pyStr.toList ++ ['"']))) =
      false := by
    rw [hasInfix_pair_cons_ne _ _ (by decide), hasInfix_pair_cons_ne _ _ (by decide),
      hasInfix_pair_cons_ne _ _ (by decide)]
    exact his
  have hmc := matchCiao_serialized _ g name 'S' _
    (Option.some intd.pyStr.toList) Option.none ('"' :: ed.pyStr.toList ++ ['"'])
    hsL hg hname (by decide)
    (ciaoWs1_tailC _ _ hbQ rfl) hno
  exact fromString_endgame_select _ g name intd ed hg hmc hip hep

/-- C4 as amended: serializing and re-parsing is the identity for the
Value and Select variants on grammar-safe components (single-digit or
absent group; name free of group-prefix clashes; rendered fields free of
colon-space pairs and of the closing delimiters of the groups that follow
them, and value-level parses that invert the rendering); the Scale variant
instead reparses to a parameter whose name has gained the one leading
space that `ScaleParameter.ciao_string` prints between the group prefix
and the name. -/
theorem c4_roundtrip_amended :
    (∀ (g : Option ℤ) (name : String) (ss hs hv : PyValue),
      (∀ n, g = Option.some n → 1 ≤ n ∧ n ≤ 9) →
      (g = Option.none → nameStartOk name.toList = true) →
      (if ss.truthy then
          parseParameterValue (Option.some ss.pyStr) = Except.ok (ss, [])
        else ss = PyValue.none) →
      (if hs.truthy then
          parseParameterValue (Option.some hs.pyStr) = Except.ok (hs, [])
        else hs = PyValue.none) →
      parseParameterValue (Option.some hv.pyStr) = Except.ok (hv, []) →
      listHasInfix [':', ' '] ss.pyStr.toList = false →
      listHasInfix [':', ' '] hs.pyStr.toList = false →
      listHasInfix [':', ' '] hv.pyStr.toList = false →
      ']' ∉ hs.pyStr.toList → ']' ∉ hv.pyStr.toList → ')' ∉ hv.pyStr.toList →
      headOkCiao hv.pyStr.toList = true →
      fromString (CIAOParameter.ciao_string (.valueParameter g name ss hs hv)) =
        .ok (.valueParameter g name ss hs hv)) ∧
    (∀ (g : Option ℤ) (name : String) (ss hv : PyValue),
      (∀ n, g = Option.some n → 1 ≤ n ∧ n ≤ 9) →
      parseParameterValue (Option.some ss.pyStr) = Except.ok (ss, []) →
      parseParameterValue (Option.some hv.pyStr) = Except.ok (hv, []) →
      listHasInfix [':', ' '] ss.pyStr.toList = false →
      listHasInfix [':', ' '] hv.pyStr.toList = false →
      ']' ∉ hv.pyStr.toList →
      headOkCiao hv.pyStr.toList = true →
      fromString (CIAOParameter.ciao_string (.scaleParameter g name ss hv)) =
        .ok (.scaleParameter g (" " ++ name) ss hv)) ∧
    (∀ (g : Option ℤ) (name : String) (intd ed : PyValue),
      (∀ n, g = Option.some n → 1 ≤ n ∧ n ≤ 9) →
      (g = Option.none → nameStartOk name.toList = true) →
      parseParameterValue (Option.some intd.pyStr) = Except.ok (intd, []) →
      parseParameterValue (Option.some ("\"" ++ ed.pyStr ++ "\"")) =
        Except.ok (ed, []) →
      listHasInfix [':', ' '] intd.pyStr.toList = false →
      listHasInfix [':', ' '] ed.pyStr.toList = false →
      ']' ∉ ed.pyStr.toList →
      fromString (CIAOParameter.ciao_string (.selectParameter g name intd ed)) =
        .ok (.selectParameter g name intd ed)) :=
  ⟨fromString_value_roundtrip, fromString_scale_roundtrip,
    fromString_select_roundtrip⟩

/-- Witness for C4's amended statement on three representative lines:
`\@2:Z scale: V [Sens. Zsens] (0.5 V/LSB) 1.2 V` and
`\@2:Image Data: S [Height] "Height"` round-trip exactly, while the Scale
parameter `Z magnify` comes back named ` Z magnify`. -/
theorem c4_roundtrip_amended_witness :
    fromString (CIAOParameter.ciao_string (.valueParameter (Option.some 2)
        "Z scale" (.str "Sens. Zsens") (.quantity (1 / 2) "V/LSB")
        (.quantity (6 / 5) "V"))) =
      .ok (.valueParameter (Option.some 2) "Z scale" (.str "Sens. Zsens")
        (.quantity (1 / 2) "V/LSB") (.quantity (6 / 5) "V")) ∧
    fromString (CIAOParameter.ciao_string (.scaleParameter (Option.some 2)
        "Z magnify" (.str "Z scale") (.float (3 / 5)))) =
      .ok (.scaleParameter (Option.some 2) (" " ++ "Z magnify")
        (.str "Z scale") (.float (3 / 5))) ∧
    fromString (CIAOParameter.ciao_string (.selectParameter (Option.some 2)
        "Image Data" (.str "Height") (.str "Height"))) =
      .ok (.selectParameter (Option.some 2) "Image Data" (.str "Height")
        (.str "Height")) :=
  ⟨c4_roundtrip_amended.1 (Option.some 2) "Z scale" (.str "Sens. Zsens")
      (.quantity (1 / 2) "V/LSB") (.quantity (6 / 5) "V")
      (fun n hn => by cases hn; exact ⟨by decide, by decide⟩)
      (fun h => Option.noConfusion h)
      (by rw [if_pos (show (PyValue.str "Sens. Zsens").truthy = true by decide)]
          with_unfolding_all decide)
      (by rw [if_pos (show (PyValue.quantity (1 / 2) "V/LSB").truthy = true by
            with_unfolding_all decide)]
          with_unfolding_all decide)
      (by with_unfolding_all decide) (by with_unfolding_all decide)
      (by with_unfolding_all decide) (by with_unfolding_all decide)
      (by with_unfolding_all decide) (by with_unfolding_all decide)
      (by with_unfolding_all decide) (by with_unfolding_all decide),
    c4_roundtrip_amended.2.1 (Option.some 2) "Z magnify" (.str "Z scale")
      (.float (3 / 5))
      (fun n hn => by cases hn; exact ⟨by decide, by decide⟩)
      (by with_unfolding_all decide) (by with_unfolding_all decide)
      (by with_unfolding_all decide) (by with_unfolding_all decide)
      (by with_unfolding_all decide) (by with_unfolding_all decide),
    c4_roundtrip_amended.2.2 (Option.some 2) "Image Data" (.str "Height")
      (.str "Height")
      (fun n hn => by cases hn; exact ⟨by decide, by decide⟩)
      (fun h => Option.noConfusion h)
      (by with_unfolding_all decide) (by with_unfolding_all decide)
      (by with_unfolding_all decide) (by with_unfolding_all decide)
      (by with_unfolding_all decide)⟩

end Spmpy
